import Mathlib

/-!
# gowork/net: HTTP helper layer

A shallow embedding of `net/http.go`.

* A Go string or byte slice is the list of its bytes (`GoString`); it need
  not be valid UTF-8.  Text the codec works on is a list of runes
  (`List Char`), got from the bytes as `utf8.DecodeRune` reads them.
* `int` values are `Int`; floating point payloads are outside the model.
* The part of `encoding/json` the helpers call is modelled by a concrete
  encoder (`Marshal`, `MarshalStruct`) and a concrete decoder (`Unmarshal`),
  which stores a number as the nearest `float64` and refuses a text nested
  deeper than the scanner allows.  Next to the decoder stands `readJSON`, which
  reads a text as the JSON document it holds, numbers kept as written and
  members in the order written; it is what the statements about the envelope
  and about `Serialize` compare a payload with.
* What the network, the clock and the request streams deliver is an input of
  the helpers; what they log and write is part of their result.
-/

namespace gowork

set_option maxRecDepth 100000

/-! ## Go strings and UTF-8 -/

/-- A Go string or byte slice: its bytes, each a number below 256. -/
abbrev GoString := List Nat

/-- UTF-8 form of one character (`utf8.AppendRune`). -/
def encodeRune (c : Char) : List Nat :=
  if c.toNat < 0x80 then [c.toNat]
  else if c.toNat < 0x800 then [0xC0 + c.toNat / 64, 0x80 + c.toNat % 64]
  else if c.toNat < 0x10000 then
    [0xE0 + c.toNat / 4096, 0x80 + c.toNat / 64 % 64, 0x80 + c.toNat % 64]
  else
    [0xF0 + c.toNat / 262144, 0x80 + c.toNat / 4096 % 64, 0x80 + c.toNat / 64 % 64,
      0x80 + c.toNat % 64]

/-- UTF-8 form of a text. -/
def utf8 : List Char → GoString
  | [] => []
  | c :: cs => encodeRune c ++ utf8 cs

/-- The Go string holding a text. -/
def bytesOf (s : String) : GoString := utf8 s.data

/-- What `utf8.DecodeRune` finds at the start of a string: the rune, or
U+FFFD with `valid = false` for a byte that starts no valid sequence; `lead`
is the first byte. -/
structure Piece where
  rune : Char
  valid : Bool
  lead : Nat

/-- The length of the sequence a first byte announces and the range its second
byte has to lie in (the tables `first` and `acceptRanges` of package `utf8`). -/
def acceptRange (p0 : Nat) : Option (Nat × Nat × Nat) :=
  if 0xC2 ≤ p0 ∧ p0 ≤ 0xDF then some (2, 0x80, 0xBF)
  else if p0 = 0xE0 then some (3, 0xA0, 0xBF)
  else if p0 = 0xED then some (3, 0x80, 0x9F)
  else if 0xE1 ≤ p0 ∧ p0 ≤ 0xEF then some (3, 0x80, 0xBF)
  else if p0 = 0xF0 then some (4, 0x90, 0xBF)
  else if p0 = 0xF4 then some (4, 0x80, 0x8F)
  else if 0xF1 ≤ p0 ∧ p0 ≤ 0xF3 then some (4, 0x80, 0xBF)
  else none

def isCont (b : Nat) : Bool := decide (0x80 ≤ b ∧ b ≤ 0xBF)

/-- One step of `utf8.DecodeRune`: the piece at the start of the bytes and the
bytes after it.  A byte that starts no valid sequence is a piece of its own. -/
def decodeStep : List Nat → Option (Piece × List Nat)
  | [] => none
  | p0 :: rest =>
    if p0 < 0x80 then some ({ rune := Char.ofNat p0, valid := true, lead := p0 }, rest)
    else
      match acceptRange p0, rest with
      | some (2, lo, hi), b1 :: r =>
        if lo ≤ b1 ∧ b1 ≤ hi then
          some ({ rune := Char.ofNat (p0 % 32 * 64 + b1 % 64), valid := true, lead := p0 }, r)
        else some ({ rune := Char.ofNat 0xFFFD, valid := false, lead := p0 }, rest)
      | some (3, lo, hi), b1 :: b2 :: r =>
        if lo ≤ b1 ∧ b1 ≤ hi ∧ isCont b2 = true then
          some ({ rune := Char.ofNat (p0 % 16 * 4096 + b1 % 64 * 64 + b2 % 64), valid := true,
                  lead := p0 }, r)
        else some ({ rune := Char.ofNat 0xFFFD, valid := false, lead := p0 }, rest)
      | some (4, lo, hi), b1 :: b2 :: b3 :: r =>
        if lo ≤ b1 ∧ b1 ≤ hi ∧ isCont b2 = true ∧ isCont b3 = true then
          some ({ rune := Char.ofNat (p0 % 8 * 262144 + b1 % 64 * 4096 + b2 % 64 * 64 + b3 % 64),
                  valid := true, lead := p0 }, r)
        else some ({ rune := Char.ofNat 0xFFFD, valid := false, lead := p0 }, rest)
      | _, _ => some ({ rune := Char.ofNat 0xFFFD, valid := false, lead := p0 }, rest)

def piecesCore : Nat → List Nat → List Piece
  | 0, _ => []
  | fuel + 1, bs =>
    match decodeStep bs with
    | none => []
    | some (p, rest) => p :: piecesCore fuel rest

/-- The pieces of a string, as a `for range` loop over it meets them.  Each
step uses up a byte at least, so the fuel lasts. -/
def pieces (bs : GoString) : List Piece := piecesCore bs.length bs

/-- The runes of a string: `[]rune(s)`, with U+FFFD for each byte that is part
of no valid sequence. -/
def runes (bs : GoString) : List Char := (pieces bs).map (fun p => p.rune)

/-- The text of a string. -/
def textOf (bs : GoString) : String := String.mk (runes bs)

/-- Whether the string is valid UTF-8 (`utf8.Valid`). -/
def validUTF8 (bs : GoString) : Bool := (pieces bs).all (fun p => p.valid)

/-! ## Go values handed to `json.Marshal` -/

/-- A dynamically typed Go value (`interface{}`): the payloads the helpers
receive.  A map is given by its entries.  `unsupported` stands for a value
`encoding/json` cannot encode (a channel, a function, a complex number); it
carries the Go type name. -/
inductive GoValue where
  | nil
  | bool (b : Bool)
  | int (n : Int)
  | string (s : GoString)
  | slice (xs : List GoValue)
  | map (kvs : List (GoString × GoValue))
  | unsupported (typeName : String)

/-- A JSON document as its text sets it out: a string is its text, a number
its literal, an object its members in the order written. -/
inductive JSON where
  | null
  | bool (b : Bool)
  | number (literal : String)
  | string (s : String)
  | array (xs : List JSON)
  | object (members : List (String × JSON))

/-! ## Decimal and hexadecimal digits -/

/-- The character of `"0123456789abcdef"` at index `n`. -/
def hexDigit (n : Nat) : Char :=
  if n < 10 then Char.ofNat (48 + n) else Char.ofNat (87 + n)

/-- Value of a hexadecimal digit, either case. -/
def hexVal (c : Char) : Option Nat :=
  if 48 ≤ c.toNat ∧ c.toNat ≤ 57 then some (c.toNat - 48)
  else if 97 ≤ c.toNat ∧ c.toNat ≤ 102 then some (c.toNat - 87)
  else if 65 ≤ c.toNat ∧ c.toNat ≤ 70 then some (c.toNat - 55)
  else none

/-- Digits of `n`, least significant first into `acc` (strconv.AppendInt). -/
def decimalCore : Nat → Nat → List Char → List Char
  | 0, _, acc => acc
  | fuel + 1, n, acc =>
    if n / 10 = 0 then Char.ofNat (48 + n % 10) :: acc
    else decimalCore fuel (n / 10) (Char.ofNat (48 + n % 10) :: acc)

def formatNat (n : Nat) : List Char := decimalCore (n + 1) n []

/-- The decimal numeral of an integer. -/
def formatInt : Int → List Char
  | Int.ofNat n => formatNat n
  | Int.negSucc n => '-' :: formatNat (n + 1)

def isDigit (c : Char) : Bool := decide (48 ≤ c.toNat ∧ c.toNat ≤ 57)

/-- Value of a run of decimal digits read left to right, starting from `acc`. -/
def digitsVal (acc : Nat) (cs : List Char) : Nat :=
  cs.foldl (fun a c => a * 10 + (c.toNat - 48)) acc

/-! ## `json.Marshal` -/

/-- One rune of a string as `appendString` writes it with HTML escaping on:
printable ASCII other than the quote, the backslash, `<`, `>` and `&` is copied,
the quote and the backslash get a backslash, `\b \f \n \r \t` their short
form, every other ASCII character, U+2028 and U+2029 the form `\u00XX`. -/
def appendRune (c : Char) : List Char :=
  if c.toNat < 128 then
    if 32 ≤ c.toNat ∧ c ≠ '"' ∧ c ≠ '\\' ∧ c ≠ '<' ∧ c ≠ '>' ∧ c ≠ '&' then [c]
    else if c = '\\' ∨ c = '"' then ['\\', c]
    else if c.toNat = 8 then ['\\', 'b']
    else if c.toNat = 12 then ['\\', 'f']
    else if c = '\n' then ['\\', 'n']
    else if c = '\r' then ['\\', 'r']
    else if c = '\t' then ['\\', 't']
    else ['\\', 'u', '0', '0', hexDigit (c.toNat / 16), hexDigit (c.toNat % 16)]
  else if c.toNat = 0x2028 ∨ c.toNat = 0x2029 then
    ['\\', 'u', '2', '0', '2', hexDigit (c.toNat % 16)]
  else [c]

/-- One piece of a string as `appendString` writes it: a byte that is part of
no valid UTF-8 sequence is written as the escape `\ufffd`. -/
def appendPiece (p : Piece) : List Char :=
  if p.valid then appendRune p.rune else ['\\', 'u', 'f', 'f', 'f', 'd']

def appendPieces : List Piece → List Char
  | [] => []
  | p :: ps => appendPiece p ++ appendPieces ps

/-- A quoted JSON string. -/
def appendString (s : GoString) : List Char :=
  '"' :: (appendPieces (pieces s) ++ ['"'])

/-- Byte-wise lexicographic order (`strings.Compare`). -/
def ltBytes : List Nat → List Nat → Bool
  | _, [] => false
  | [], _ :: _ => true
  | a :: as, b :: bs => decide (a < b) || (decide (a = b) && ltBytes as bs)

def keyLt (a b : GoString) : Bool := ltBytes a b

/-- Stable insertion of an entry into a list ordered by key. -/
def insertByKey {α : Type} (k : GoString) (a : α) : List (GoString × α) → List (GoString × α)
  | [] => [(k, a)]
  | (k1, a1) :: rest =>
    if keyLt k k1 then (k, a) :: (k1, a1) :: rest else (k1, a1) :: insertByKey k a rest

/-- Entries ordered by key, as the map encoder orders them. -/
def sortByKey {α : Type} : List (GoString × α) → List (GoString × α)
  | [] => []
  | (k, a) :: rest => insertByKey k a (sortByKey rest)

/-- Rendered members `"k":v` joined by commas. -/
def joinMembers : List (GoString × List Char) → List Char
  | [] => []
  | [(k, v)] => appendString k ++ ':' :: v
  | (k, v) :: m :: rest => appendString k ++ ':' :: v ++ ',' :: joinMembers (m :: rest)

mutual
/-- JSON text of a value; nothing is written for an unsupported one. -/
def encode : GoValue → List Char
  | .nil => ['n', 'u', 'l', 'l']
  | .bool true => ['t', 'r', 'u', 'e']
  | .bool false => ['f', 'a', 'l', 's', 'e']
  | .int n => formatInt n
  | .string s => appendString s
  | .slice xs => '[' :: (encodeElems xs ++ [']'])
  | .map kvs => '{' :: (joinMembers (sortByKey (encodeMembers kvs)) ++ ['}'])
  | .unsupported _ => []
/-- Elements joined by commas. -/
def encodeElems : List GoValue → List Char
  | [] => []
  | [x] => encode x
  | x :: y :: rest => encode x ++ ',' :: encodeElems (y :: rest)
/-- Each entry with its value rendered. -/
def encodeMembers : List (GoString × GoValue) → List (GoString × List Char)
  | [] => []
  | (k, v) :: rest => (k, encode v) :: encodeMembers rest
end

mutual
/-- The first unsupported type met while encoding, in encoding order. -/
def unsupportedIn : GoValue → Option String
  | .unsupported t => some t
  | .slice xs => unsupportedInElems xs
  | .map kvs => ((sortByKey (unsupportedInMembers kvs)).map Prod.snd).findSome? id
  | _ => none
def unsupportedInElems : List GoValue → Option String
  | [] => none
  | x :: rest => (unsupportedIn x).orElse (fun _ => unsupportedInElems rest)
def unsupportedInMembers : List (GoString × GoValue) → List (GoString × Option String)
  | [] => []
  | (k, v) :: rest => (k, unsupportedIn v) :: unsupportedInMembers rest
end

/-- Errors of `json.Marshal`. -/
inductive MarshalError where
  | unsupportedType (typeName : String)

def MarshalError.Error : MarshalError → GoString
  | .unsupportedType t => bytesOf ("json: unsupported type: " ++ t)

/-- Encoding of a value as `json.Marshal` returns it: the UTF-8 bytes of its
JSON text. -/
def Marshal (v : GoValue) : Except MarshalError GoString :=
  match unsupportedIn v with
  | some t => .error (.unsupportedType t)
  | none => .ok (utf8 (encode v))

/-! ## Reading a JSON text -/

/-- What the scanner rejects: the end of the input, or a character in a
context; `left` counts the characters from the offending one to the end of
the input, and is 0 when the end of the input is scanned as a space. -/
inductive ScanError where
  | unexpectedEnd
  | invalid (left : Nat) (context : String)

def isSpace (c : Char) : Bool :=
  decide (c = ' ') || decide (c = '\t') || decide (c = '\r') || decide (c = '\n')

def skipSpace : List Char → List Char
  | [] => []
  | c :: cs => if isSpace c then skipSpace cs else c :: cs

def hex4 (a b c d : Char) : Option Nat :=
  match hexVal a, hexVal b, hexVal c, hexVal d with
  | some x, some y, some z, some w => some (((x * 16 + y) * 16 + z) * 16 + w)
  | _, _, _, _ => none

/-- The complaint about a `\u` escape that is cut short or holds a character
that is no hexadecimal digit, from the input after the `u` with `k` digits
still to come. -/
def hexError : Nat → List Char → ScanError
  | 0, cs => .invalid cs.length "in \\u hexadecimal character escape"
  | _ + 1, [] => .invalid 0 "in \\u hexadecimal character escape"
  | k + 1, c :: cs =>
    if (hexVal c).isSome then hexError k cs
    else .invalid (c :: cs).length "in \\u hexadecimal character escape"

/-- The character a one-letter escape stands for. -/
def simpleEscape (e : Char) : Option Char :=
  if e = '"' then some '"'
  else if e = '\\' then some '\\'
  else if e = '/' then some '/'
  else if e = 'b' then some (Char.ofNat 8)
  else if e = 'f' then some (Char.ofNat 12)
  else if e = 'n' then some '\n'
  else if e = 'r' then some '\r'
  else if e = 't' then some '\t'
  else none

def consRune (c : Char) (r : Except ScanError (List Char × List Char)) :
    Except ScanError (List Char × List Char) :=
  match r with
  | .error e => .error e
  | .ok p => .ok (c :: p.1, p.2)

/-- The low half of a surrogate pair, when the input goes on with `\uXXXX`
holding one. -/
def lowSurrogate : List Char → Option Nat
  | x :: y :: a :: b :: c :: d :: _ =>
    if x = '\\' ∧ y = 'u' then
      match hex4 a b c d with
      | some r => if 0xDC00 ≤ r ∧ r < 0xE000 then some r else none
      | none => none
    else none
  | _ => none

/-- What stands next in a string literal: its closing quote, one character
(written plainly or as an escape), or something the scanner rejects. -/
inductive Rune where
  | closing (rest : List Char)
  | char (c : Char) (rest : List Char)
  | bad (e : ScanError)

/-- The character of a `\u` escape, from after the `u`.  The high half of a
surrogate pair followed by an escape holding a low half is one character; a
half without its partner reads as U+FFFD. -/
def readEscapeU : List Char → Rune
  | a :: b :: c :: d :: rest2 =>
    match hex4 a b c d with
    | none => .bad (hexError 4 (a :: b :: c :: d :: rest2))
    | some r =>
      if 0xD800 ≤ r ∧ r < 0xE000 then
        match lowSurrogate rest2, rest2 with
        | some r1, _ :: _ :: _ :: _ :: _ :: _ :: rest3 =>
          if r < 0xDC00 then
            .char (Char.ofNat ((r - 0xD800) * 1024 + (r1 - 0xDC00) + 0x10000)) rest3
          else .char (Char.ofNat 0xFFFD) rest2
        | _, _ => .char (Char.ofNat 0xFFFD) rest2
      else .char (Char.ofNat r) rest2
  | short => .bad (hexError 4 short)

def readRune : List Char → Rune
  | [] => .bad .unexpectedEnd
  | c :: rest =>
    if c = '"' then .closing rest
    else if c = '\\' then
      match rest with
      | [] => .bad (.invalid 0 "in string escape code")
      | e :: rest1 =>
        if e = 'u' then readEscapeU rest1
        else
          match simpleEscape e with
          | some x => .char x rest1
          | none => .bad (.invalid (e :: rest1).length "in string escape code")
    else if c.toNat < 32 then .bad (.invalid (c :: rest).length "in string literal")
    else .char c rest

def unquoteCore : Nat → List Char → Except ScanError (List Char × List Char)
  | 0, _ => .error .unexpectedEnd
  | fuel + 1, cs =>
    match readRune cs with
    | .closing rest => .ok ([], rest)
    | .char c rest => consRune c (unquoteCore fuel rest)
    | .bad e => .error e

/-- The text of a string literal from after its opening quote, and the input
after its closing quote.  Each step uses up input, so the fuel lasts. -/
def unquote (cs : List Char) : Except ScanError (List Char × List Char) :=
  unquoteCore (cs.length + 1) cs

def spanDigits : List Char → List Char × List Char
  | [] => ([], [])
  | c :: cs => if isDigit c then ((c :: (spanDigits cs).1), (spanDigits cs).2) else ([], c :: cs)

/-- Integer part of a number: a lone `0`, or a run of digits. -/
def scanInt : List Char → Except ScanError (List Char × List Char)
  | [] => .error (.invalid 0 "in numeric literal")
  | c :: rest =>
    if c = '0' then .ok (['0'], rest)
    else if isDigit c then .ok (c :: (spanDigits rest).1, (spanDigits rest).2)
    else .error (.invalid (c :: rest).length "in numeric literal")

/-- Optional fraction: the point and its digits. -/
def scanFrac : List Char → Except ScanError (List Char × List Char)
  | [] => .ok ([], [])
  | c :: rest =>
    if c = '.' then
      if (spanDigits rest).1 = [] then
        .error (.invalid rest.length "after decimal point in numeric literal")
      else .ok ('.' :: (spanDigits rest).1, (spanDigits rest).2)
    else .ok ([], c :: rest)

/-- Optional sign of an exponent. -/
def scanSign : List Char → List Char × List Char
  | [] => ([], [])
  | s :: rest =>
    if s = '+' ∨ s = '-' then ([s], rest) else ([], s :: rest)

/-- Optional exponent: its letter, sign and digits. -/
def scanExp : List Char → Except ScanError (List Char × List Char)
  | [] => .ok ([], [])
  | c :: rest =>
    if c = 'e' ∨ c = 'E' then
      if (spanDigits (scanSign rest).2).1 = [] then
        .error (.invalid (scanSign rest).2.length "in exponent of numeric literal")
      else
        .ok (c :: ((scanSign rest).1 ++ (spanDigits (scanSign rest).2).1),
          (spanDigits (scanSign rest).2).2)
    else .ok ([], c :: rest)

/-- A number whose sign, if any, was read, and the input after it. -/
def scanNumber (sign : List Char) (cs : List Char) : Except ScanError (JSON × List Char) :=
  match scanInt cs with
  | .error e => .error e
  | .ok (ip, r1) =>
    match scanFrac r1 with
    | .error e => .error e
    | .ok (fp, r2) =>
      match scanExp r2 with
      | .error e => .error e
      | .ok (ep, r3) => .ok (.number (String.mk (sign ++ ip ++ fp ++ ep)), r3)

/-- The rest of a literal `true`, `false` or `null` after its first letter. -/
def expectLit (name : String) : List Char → List Char → Except ScanError (List Char)
  | [], cs => .ok cs
  | e :: _, [] =>
    .error (.invalid 0 ("in literal " ++ name ++ " (expecting '" ++ String.mk [e] ++ "')"))
  | e :: es, c :: cs =>
    if c = e then expectLit name es cs
    else .error (.invalid (c :: cs).length
      ("in literal " ++ name ++ " (expecting '" ++ String.mk [e] ++ "')"))

def withRest {α β : Type} (f : α → β) (r : Except ScanError (α × List Char)) :
    Except ScanError (β × List Char) :=
  match r with
  | .error e => .error e
  | .ok p => .ok (f p.1, p.2)

mutual
/-- One value and the input after it. -/
def parseValue : Nat → List Char → Except ScanError (JSON × List Char)
  | 0, _ => .error .unexpectedEnd
  | fuel + 1, cs =>
    match skipSpace cs with
    | [] => .error .unexpectedEnd
    | c :: rest =>
      if c = Char.ofNat 123 then
        match skipSpace rest with
        | [] => .error .unexpectedEnd
        | d :: rest1 =>
          if d = Char.ofNat 125 then .ok (.object [], rest1)
          else withRest JSON.object (parseMembers fuel (d :: rest1))
      else if c = '[' then
        match skipSpace rest with
        | [] => .error .unexpectedEnd
        | d :: rest1 =>
          if d = ']' then .ok (.array [], rest1)
          else withRest JSON.array (parseElems fuel (d :: rest1))
      else if c = '"' then withRest (fun s => JSON.string (String.mk s)) (unquote rest)
      else if c = '-' then scanNumber ['-'] rest
      else if isDigit c then scanNumber [] (c :: rest)
      else if c = 't' then
        match expectLit "true" ['r', 'u', 'e'] rest with
        | .error e => .error e
        | .ok r => .ok (.bool true, r)
      else if c = 'f' then
        match expectLit "false" ['a', 'l', 's', 'e'] rest with
        | .error e => .error e
        | .ok r => .ok (.bool false, r)
      else if c = 'n' then
        match expectLit "null" ['u', 'l', 'l'] rest with
        | .error e => .error e
        | .ok r => .ok (.null, r)
      else .error (.invalid (c :: rest).length "looking for beginning of value")
/-- The elements of an array from its first one, and the input after `]`. -/
def parseElems : Nat → List Char → Except ScanError (List JSON × List Char)
  | 0, _ => .error .unexpectedEnd
  | fuel + 1, cs =>
    match parseValue fuel cs with
    | .error e => .error e
    | .ok (v, rest) =>
      match skipSpace rest with
      | [] => .error .unexpectedEnd
      | c :: rest1 =>
        if c = ',' then withRest (fun vs => v :: vs) (parseElems fuel rest1)
        else if c = ']' then .ok ([v], rest1)
        else .error (.invalid (c :: rest1).length "after array element")
/-- The members of an object from its first key, and the input after the
closing brace. -/
def parseMembers : Nat → List Char → Except ScanError (List (String × JSON) × List Char)
  | 0, _ => .error .unexpectedEnd
  | fuel + 1, cs =>
    match skipSpace cs with
    | [] => .error .unexpectedEnd
    | q :: rest =>
      if q = '"' then
        match unquote rest with
        | .error e => .error e
        | .ok (k, rest1) =>
          match skipSpace rest1 with
          | [] => .error .unexpectedEnd
          | c :: rest2 =>
            if c = ':' then
              match parseValue fuel rest2 with
              | .error e => .error e
              | .ok (v, rest3) =>
                match skipSpace rest3 with
                | [] => .error .unexpectedEnd
                | d :: rest4 =>
                  if d = ',' then
                    withRest (fun kvs => (String.mk k, v) :: kvs) (parseMembers fuel rest4)
                  else if d = Char.ofNat 125 then .ok ([(String.mk k, v)], rest4)
                  else .error (.invalid (d :: rest4).length "after object key:value pair")
            else .error (.invalid (c :: rest2).length "after object key")
      else .error (.invalid (q :: rest).length "looking for beginning of object key string")
end

/-- The document a text holds, nothing but white space following it. -/
def parseDocument (text : List Char) : Except ScanError JSON :=
  match parseValue (2 * text.length + 2) text with
  | .error e => .error e
  | .ok (v, rest) =>
    match skipSpace rest with
    | [] => .ok v
    | c :: rest1 => .error (.invalid (c :: rest1).length "after top-level value")

/-- Errors of `json.Unmarshal`. -/
inductive JsonError where
  | SyntaxError (msg : String)
  | InvalidUnmarshalError (goType : Option String) (pointer : Bool)
  | UnmarshalTypeError (value goType : String)

/-- The text of an error of `json.Unmarshal`. -/
def JsonError.message : JsonError → String
  | .SyntaxError msg => msg
  | .InvalidUnmarshalError none _ => "json: Unmarshal(nil)"
  | .InvalidUnmarshalError (some t) false => "json: Unmarshal(non-pointer " ++ t ++ ")"
  | .InvalidUnmarshalError (some t) true => "json: Unmarshal(nil " ++ t ++ ")"
  | .UnmarshalTypeError value t =>
    "json: cannot unmarshal " ++ value ++ " into Go value of type " ++ t

def JsonError.Error (e : JsonError) : GoString := bytesOf e.message

/-- The offending byte as the scanner's messages show it (`quoteChar`): the
byte taken for a rune, in single quotes, escaped as `strconv.Quote` does when
it is not printable. -/
def quoteByte (b : Nat) : List Char :=
  if b = 39 then ['\'', '\\', '\'', '\'']
  else if b = 34 then ['\'', '"', '\'']
  else if b = 92 then ['\'', '\\', '\\', '\'']
  else if b = 7 then ['\'', '\\', 'a', '\'']
  else if b = 8 then ['\'', '\\', 'b', '\'']
  else if b = 12 then ['\'', '\\', 'f', '\'']
  else if b = 10 then ['\'', '\\', 'n', '\'']
  else if b = 13 then ['\'', '\\', 'r', '\'']
  else if b = 9 then ['\'', '\\', 't', '\'']
  else if b = 11 then ['\'', '\\', 'v', '\'']
  else if b < 32 ∨ b = 127 then ['\'', '\\', 'x', hexDigit (b / 16), hexDigit (b % 16), '\'']
  else if (128 ≤ b ∧ b ≤ 160) ∨ b = 173 then
    ['\'', '\\', 'u', '0', '0', hexDigit (b / 16), hexDigit (b % 16), '\'']
  else ['\'', Char.ofNat b, '\'']

/-- The first byte of the piece that has `left` pieces from itself to the end
of the text; a space when `left` is 0. -/
def offendingByte (text : GoString) (left : Nat) : Nat :=
  if left = 0 then 32
  else
    match (pieces text).drop ((pieces text).length - left) with
    | [] => 32
    | p :: _ => p.lead

/-- The syntax error `json.Unmarshal` reports for what the scanner rejects. -/
def syntaxError (text : GoString) : ScanError → JsonError
  | .unexpectedEnd => .SyntaxError "unexpected end of JSON input"
  | .invalid left context =>
    .SyntaxError ("invalid character " ++ String.mk (quoteByte (offendingByte text left)) ++ " " ++
      context)

/-- The JSON document the bytes hold.  The text is read rune by rune; a byte
that is part of no valid UTF-8 sequence reads as U+FFFD inside a string
literal and is rejected elsewhere. -/
def readJSON (text : GoString) : Except JsonError JSON :=
  match parseDocument (runes text) with
  | .error e => .error (syntaxError text e)
  | .ok doc => .ok doc

/-! ## `json.Unmarshal` -/

/-- A `float64` that is no NaN and not infinite: the number
`(-1)^neg * mant * 2^exp`, with `mant` odd, or `mant = 0` and `exp = 0`. -/
structure Float64 where
  neg : Bool
  mant : Nat
  exp : Int

/-- The product `acc * b ^ k`. -/
def timesPower (b : Nat) : Nat → Nat → Nat
  | 0, acc => acc
  | k + 1, acc => timesPower b k (acc * b)

/-- The power `b ^ k`. -/
def power (b k : Nat) : Nat := timesPower b k 1

/-- The number of binary digits of `n`, added to `acc`. -/
def bitLengthCore : Nat → Nat → Nat → Nat
  | 0, _, acc => acc
  | fuel + 1, n, acc => if n = 0 then acc else bitLengthCore fuel (n / 2) (acc + 1)

/-- Number of binary digits of `n`. -/
def bitLength (n : Nat) : Nat := bitLengthCore n n 0

/-- The fraction `num / (den * 2^e)` as a numerator and a denominator. -/
def scaleBy (num den : Nat) (e : Int) : Nat × Nat :=
  if 0 ≤ e then (num, den * power 2 e.toNat) else (num * power 2 (-e).toNat, den)

/-- The form with an odd mantissa. -/
def oddForm : Nat → Nat → Int → Nat × Int
  | 0, m, e => (m, e)
  | fuel + 1, m, e => if m ≠ 0 ∧ m % 2 = 0 then oddForm fuel (m / 2) (e + 1) else (m, e)

/-- The `float64` nearest to `num / den` for `den > 0`, a tie going to the
even mantissa; `none` when it lies beyond the largest `float64`.  The
mantissa has 53 bits, fewer below `2^-1022` where the exponent stays at
`-1074`. -/
def roundFloat64 (neg : Bool) (num den : Nat) : Option Float64 :=
  if num = 0 then some { neg := neg, mant := 0, exp := 0 }
  else
    let e1 : Int := max ((bitLength num : Int) - (bitLength den : Int) - 53) (-1074)
    let e : Int :=
      if power 2 53 ≤ (scaleBy num den e1).1 / (scaleBy num den e1).2 then e1 + 1 else e1
    let a := (scaleBy num den e).1
    let b := (scaleBy num den e).2
    let q := if b < 2 * (a % b) ∨ (2 * (a % b) = b ∧ a / b % 2 = 1) then a / b + 1 else a / b
    if q = 0 then some { neg := neg, mant := 0, exp := 0 }
    else if 1024 < (bitLength q : Int) + e then none
    else some { neg := neg, mant := (oddForm 64 q e).1, exp := (oddForm 64 q e).2 }

/-- The part of a number literal after its integer digits: the digits of its
fraction, and what follows them. -/
def fractionPart : List Char → List Char × List Char
  | [] => ([], [])
  | c :: rest => if c = '.' then spanDigits rest else ([], c :: rest)

/-- The exponent a number literal ends with, `0` when it has none. -/
def exponentPart : List Char → Int
  | [] => 0
  | _ :: rest =>
    if (scanSign rest).1 = ['-'] then -(digitsVal 0 (spanDigits (scanSign rest).2).1 : Int)
    else (digitsVal 0 (spanDigits (scanSign rest).2).1 : Int)

/-- The `float64` of a number literal (`strconv.ParseFloat(s, 64)`): the nearest
one; `none` when the literal is out of range.  A literal too small for a
`float64` gives zero. -/
def parseFloat64 (lit : List Char) : Option Float64 :=
  let neg : Bool := decide (lit.head? = some '-')
  let body := if neg then lit.tail else lit
  let ip := (spanDigits body).1
  let fp := (fractionPart (spanDigits body).2).1
  let e10 : Int := exponentPart (fractionPart (spanDigits body).2).2 - (fp.length : Int)
  if 0 ≤ e10 then roundFloat64 neg (digitsVal 0 (ip ++ fp) * power 10 e10.toNat) 1
  else roundFloat64 neg (digitsVal 0 (ip ++ fp)) (power 10 (-e10).toNat)

/-- What `json.Unmarshal` stores into an `interface{}`: nil, a `bool`, a
`float64`, a `string`, a `[]interface{}` or a `map[string]interface{}`, the
map given by its entries in key order. -/
inductive Decoded where
  | nil
  | bool (b : Bool)
  | float64 (f : Float64)
  | string (s : GoString)
  | slice (xs : List Decoded)
  | map (kvs : List (GoString × Decoded))

/-- Go map assignment `m[k] = v` on a map kept as its entries in key order. -/
def mapAssign {α : Type} (k : GoString) (v : α) : List (GoString × α) → List (GoString × α)
  | [] => [(k, v)]
  | (k1, v1) :: rest =>
    if keyLt k k1 then (k, v) :: (k1, v1) :: rest
    else if keyLt k1 k then (k1, v1) :: mapAssign k v rest
    else (k, v) :: rest

/-- Assignment of each entry in turn, a later one replacing an earlier one. -/
def mapAssignAll {α : Type} (entries m : List (GoString × α)) : List (GoString × α) :=
  entries.foldl (fun acc kv => mapAssign kv.1 kv.2 acc) m

mutual
/-- The Go value a document is decoded to when the target is an
`interface{}`.  A number becomes a `float64`, and one out of range is an
error; the first such number in the document is the one reported. -/
def toGo : JSON → Except JsonError Decoded
  | .null => .ok .nil
  | .bool b => .ok (.bool b)
  | .number lit =>
    match parseFloat64 lit.data with
    | some f => .ok (.float64 f)
    | none => .error (.UnmarshalTypeError ("number " ++ lit) "float64")
  | .string s => .ok (.string (bytesOf s))
  | .array xs =>
    match toGoElems xs with
    | .error e => .error e
    | .ok ys => .ok (.slice ys)
  | .object ms =>
    match toGoMembers ms with
    | .error e => .error e
    | .ok kvs => .ok (.map (mapAssignAll kvs []))
def toGoElems : List JSON → Except JsonError (List Decoded)
  | [] => .ok []
  | x :: rest =>
    match toGo x with
    | .error e => .error e
    | .ok y =>
      match toGoElems rest with
      | .error e => .error e
      | .ok ys => .ok (y :: ys)
def toGoMembers : List (String × JSON) → Except JsonError (List (GoString × Decoded))
  | [] => .ok []
  | (k, x) :: rest =>
    match toGo x with
    | .error e => .error e
    | .ok y =>
      match toGoMembers rest with
      | .error e => .error e
      | .ok kvs => .ok ((bytesOf k, y) :: kvs)
end

/-- Where the nesting of arrays and objects first goes beyond 10000, the
scanner's limit: the number of characters from that bracket to the end of
the text.  `depth` brackets are open; `inString` and `escaped` say whether
the text is inside a string literal and right after a backslash there. -/
def depthExceeded : List Char → Nat → Bool → Bool → Option Nat
  | [], _, _, _ => none
  | c :: cs, depth, true, escaped =>
    if escaped then depthExceeded cs depth true false
    else if c = '\\' then depthExceeded cs depth true true
    else if c = '"' then depthExceeded cs depth false false
    else depthExceeded cs depth true false
  | c :: cs, depth, false, _ =>
    if c = '"' then depthExceeded cs depth true false
    else if c = '[' ∨ c = Char.ofNat 123 then
      if 10000 < depth + 1 then some (c :: cs).length
      else depthExceeded cs (depth + 1) false false
    else if c = ']' ∨ c = Char.ofNat 125 then depthExceeded cs (depth - 1) false false
    else depthExceeded cs depth false false

/-- The scanner's pass over a text (`checkValid`): the document, or what is
rejected first.  The scanner goes through the text once, so of a character
that is out of place and a bracket that nests too deep the one met first is
reported. -/
def checkValid (text : List Char) : Except ScanError JSON :=
  match depthExceeded text 0 false false, parseDocument text with
  | none, r => r
  | some deep, .error (.invalid left context) =>
    if deep < left ∨ deep = left then .error (.invalid left context)
    else .error (.invalid deep "exceeded max depth")
  | some deep, _ => .error (.invalid deep "exceeded max depth")

/-- The second argument of `json.Unmarshal`. -/
inductive Target where
  /-- the nil interface -/
  | nil
  /-- a value that is no pointer, of the named type -/
  | value (goType : String)
  /-- a nil pointer of the named pointer type -/
  | nilPointer (goType : String)
  /-- a pointer to an `interface{}` variable that holds nil -/
  | toInterface
  /-- a pointer to a `map[string]interface{}` variable holding `cur`, `none` being the nil map -/
  | toMap (cur : Option (List (GoString × Decoded)))

/-- How `UnmarshalTypeError` names a JSON value. -/
def JSON.kindName : JSON → String
  | .null => "null"
  | .bool _ => "bool"
  | .number _ => "number"
  | .string _ => "string"
  | .array _ => "array"
  | .object _ => "object"

/-- The document stored through a pointer to an `interface{}` holding nil, or
through a pointer to a map: what the variable holds afterwards (`Decoded.nil`
for a nil map). -/
def store (doc : JSON) (cur : Option (Option (List (GoString × Decoded)))) :
    Except JsonError Decoded :=
  match cur with
  | none => toGo doc
  | some m =>
    match doc with
    | .object ms =>
      match toGoMembers ms with
      | .error e => .error e
      | .ok kvs => .ok (.map (mapAssignAll kvs (m.getD [])))
    | .null => .ok .nil
    | other => .error (.UnmarshalTypeError other.kindName "map[string]interface \x7b\x7d")

/-- The call `json.Unmarshal(data, v)`: the text is checked first, then the
target; on success the result is what `v` points to afterwards. -/
def Unmarshal (data : GoString) (v : Target) : Except JsonError Decoded :=
  match checkValid (runes data) with
  | .error e => .error (syntaxError data e)
  | .ok doc =>
    match v with
    | .nil => .error (.InvalidUnmarshalError none false)
    | .value t => .error (.InvalidUnmarshalError (some t) false)
    | .nilPointer t => .error (.InvalidUnmarshalError (some t) true)
    | .toInterface => store doc none
    | .toMap cur => store doc (some cur)

/-! ## `json.Marshal` of a struct -/

/-- A struct field as the encoder sees it: its Go name, its `json` tag, its
value, and whether its static type is an interface. -/
structure StructField where
  name : String
  tag : String
  value : GoValue
  iface : Bool

/-- The name part of a tag and its options (`parseTag`): the tag is cut at
its first comma. -/
def parseTag : List Char → List Char × List Char
  | [] => ([], [])
  | c :: cs => if c = ',' then ([], cs) else (c :: (parseTag cs).1, (parseTag cs).2)

/-- The options of a tag, cut at each comma. -/
def splitComma : List Char → List (List Char)
  | [] => [[]]
  | c :: cs =>
    if c = ',' then [] :: splitComma cs
    else
      match splitComma cs with
      | [] => [[c]]
      | w :: ws => (c :: w) :: ws

/-- Whether the options hold `optionName`, compared letter for letter
(`tagOptions.Contains`). -/
def tagContains (opts : List Char) (optionName : String) : Bool :=
  if opts = [] then false else (splitComma opts).contains optionName.data

/-- The characters a tag name may hold (`isValidTag`); letters and digits are
the ASCII ones here. -/
def isValidTag (name : List Char) : Bool :=
  !name.isEmpty &&
    name.all (fun c => "!#$%&()*+-./:;<=>?@[]^_\x7b|\x7d~ ".data.contains c || c.isAlphanum)

/-- The key a field is written under: the tag's name, or the Go name when the
tag gives none. -/
def StructField.key (f : StructField) : String :=
  if isValidTag (parseTag f.tag.data).1 then String.mk (parseTag f.tag.data).1 else f.name

def StructField.omitEmpty (f : StructField) : Bool :=
  tagContains (parseTag f.tag.data).2 "omitempty"

/-- The encoder's `isEmptyValue`: false, 0, an empty string, slice or map, and
for a field of interface type the nil interface only. -/
def StructField.isEmptyValue (f : StructField) : Bool :=
  if f.iface then
    match f.value with
    | .nil => true
    | _ => false
  else
    match f.value with
    | .nil => true
    | .bool b => !b
    | .int n => decide (n = 0)
    | .string s => s.isEmpty
    | .slice xs => xs.isEmpty
    | .map kvs => kvs.isEmpty
    | .unsupported _ => false

/-- The members of a struct in field order: a field tagged `-` is left out,
and so is an empty field whose tag asks for `omitempty`. -/
def structMembers : List StructField → Except MarshalError (List (GoString × List Char))
  | [] => .ok []
  | f :: rest =>
    if f.tag.data = ['-'] then structMembers rest
    else if f.omitEmpty && f.isEmptyValue then structMembers rest
    else
      match unsupportedIn f.value with
      | some t => .error (.unsupportedType t)
      | none =>
        match structMembers rest with
        | .error e => .error e
        | .ok ms => .ok ((bytesOf f.key, encode f.value) :: ms)

/-- Encoding of a struct with the given fields as `json.Marshal` returns it. -/
def MarshalStruct (fields : List StructField) : Except MarshalError GoString :=
  match structMembers fields with
  | .error e => .error e
  | .ok ms => .ok (utf8 (Char.ofNat 123 :: (joinMembers ms ++ [Char.ofNat 125])))

/-! ## Collaborators of package `net` -/

/-- An operand of a format call that builds a message. -/
inductive FmtArg where
  | str (s : GoString)
  | int (n : Int)

/-- One operand under the verb `v`: `%s` and `%v` print a string, `%d` and
`%v` an integer, another pairing prints as `fmt` reports a wrong verb. -/
def formatVerb (v : Char) : FmtArg → GoString
  | .str s =>
    if v = 's' ∨ v = 'v' then s
    else utf8 ('%' :: '!' :: v :: "(string=".data) ++ s ++ [41]
  | .int n =>
    if v = 'd' ∨ v = 'v' then utf8 (formatInt n)
    else utf8 ('%' :: '!' :: v :: ("(int=".data ++ formatInt n ++ [')']))

/-- Operands left over when the format is used up. -/
def extraArgs : List FmtArg → GoString
  | [] => []
  | [.str s] => bytesOf "string=" ++ s
  | [.int n] => bytesOf "int=" ++ utf8 (formatInt n)
  | .str s :: a :: rest => bytesOf "string=" ++ s ++ bytesOf ", " ++ extraArgs (a :: rest)
  | .int n :: a :: rest =>
    bytesOf "int=" ++ utf8 (formatInt n) ++ bytesOf ", " ++ extraArgs (a :: rest)

/-- The format written out byte by byte; the verb after a `%` is the rune
that stands there. -/
def sprintfCore : Nat → GoString → List FmtArg → GoString
  | 0, _, _ => []
  | _ + 1, [], [] => []
  | _ + 1, [], a :: rest => bytesOf "%!(EXTRA " ++ extraArgs (a :: rest) ++ [41]
  | fuel + 1, c :: rest, args =>
    if c = 37 then
      match decodeStep rest with
      | none => bytesOf "%!(NOVERB)" ++ sprintfCore fuel [] args
      | some (verb, rest1) =>
        if verb.rune = '%' then 37 :: sprintfCore fuel rest1 args
        else
          match args with
          | [] => utf8 ('%' :: '!' :: verb.rune :: "(MISSING)".data) ++ sprintfCore fuel rest1 []
          | a :: more => formatVerb verb.rune a ++ sprintfCore fuel rest1 more
    else c :: sprintfCore fuel rest args

/-- The function `fmt.Sprintf` for formats whose verbs are plain `%s`, `%d`, `%v` and `%%`. -/
def Sprintf (format : GoString) (args : List FmtArg) : GoString :=
  sprintfCore (format.length + 1) format args

/-- Modelled from the spec: the application error of package `xerr`, which is
not among the sources: "an application-error type exposing a numeric code and
a message".  `Code()` is the code and `Error()` the message. -/
structure Xerr where
  code : Int
  msg : GoString

def Xerr.Code (e : Xerr) : Int := e.code

def Xerr.Error (e : Xerr) : GoString := e.msg

/-- Modelled from the spec: `xerr.New(code, format, args...)`, which is not
among the sources: the application error with that code whose message is the
format with its verbs filled in. -/
def xerr.New (code : Int) (format : GoString) (args : List FmtArg) : Xerr :=
  { code := code, msg := Sprintf format args }

/-- A Go `error`: an application error (`*xerr.Xerr`) or any other error,
known by its message. -/
inductive GoError where
  | app (e : Xerr)
  | other (msg : GoString)

def GoError.Error : GoError → GoString
  | .app e => e.Error
  | .other m => m

/-- A body stream (`io.ReadCloser`): the bytes not yet read, and the message
of the error a read reports once they are used up (`none`: plain end of
stream). -/
structure Body where
  pending : GoString
  fault : Option GoString

/-- An incoming `http.Request`, as far as the helpers use it. -/
structure HttpRequest where
  Method : GoString
  RequestURI : GoString
  Body : Body

/-- The calls `ioutil.ReadAll` and `io.Copy` into an empty buffer: the bytes read, the
error, and the stream afterwards. -/
def Body.readAll (b : Body) : GoString × Option GoString × Body :=
  (b.pending, b.fault, { pending := [], fault := b.fault })

/-- The reader `ioutil.NopCloser(strings.NewReader(text))`. -/
def Body.ofString (text : GoString) : Body := { pending := text, fault := none }

inductive Level where
  | debug
  | info
  | error

/-- An operand of a log call; operands are kept as they are passed. -/
inductive LogArg where
  | str (s : GoString)
  | int (n : Int)
  | value (v : GoValue)
  | reader (b : Body)

/-- Modelled from the spec: a call of package `logging`, which is not among the
sources: "a structured logger with leveled methods (debug/info/error)
accepting a format string and arguments".  The log is the list of the calls. -/
structure LogEntry where
  level : Level
  format : String
  args : List LogArg

/-- An `http.ResponseWriter`: the status set by `WriteHeader`, if any, and
the chunks written. -/
structure ResponseWriter where
  status : Option Int
  written : List GoString

def ResponseWriter.Write (w : ResponseWriter) (chunk : GoString) : ResponseWriter :=
  { w with written := w.written ++ [chunk] }

/-- An `int64` result wraps around. -/
def wrap64 (x : Int) : Int := (x + 2 ^ 63) % 2 ^ 64 - 2 ^ 63

/-! ## `net/http.go` -/

structure HTTPResponse where
  Code : Int
  Msg : GoString
  Data : GoValue

/-- The fields of `HTTPResponse` with their tags as written in the source. -/
def HTTPResponse.fields (r : HTTPResponse) : List StructField :=
  [ { name := "Code", tag := "code, omitempty", value := .int r.Code, iface := false },
    { name := "Msg", tag := "msg, omitempty", value := .string r.Msg, iface := false },
    { name := "Data", tag := "data, omitempty", value := r.Data, iface := true } ]

/-- An outbound request descriptor. -/
structure Request where
  ID : GoString
  URL : GoString
  Method : GoString
  Content : GoString

/-- The `http.Response` of an outbound call. -/
structure Response where
  StatusCode : Int
  Status : GoString
  Body : Body

/-- What `Request.DoRequest` returns (`response`, `err`) and leaves behind:
the value its decode target holds afterwards, and the log lines it wrote. -/
structure DoRequestResult where
  response : Option Response
  err : Option Xerr
  stored : Option Decoded
  log : List LogEntry

/-- The call `json.Unmarshal(text, &resp)` for a non-nil `resp`: a non-nil pointer in
`resp` is decoded into, except that `null` then only clears the local
variable; any other `resp` is replaced in the local variable.  The result is
what the caller's target holds afterwards, if it has one. -/
def unmarshalVia (text : GoString) (resp : Target) : Except JsonError (Option Decoded) :=
  match checkValid (runes text) with
  | .error e => .error (syntaxError text e)
  | .ok doc =>
    match resp, doc with
    | .toInterface, .null => .ok (some .nil)
    | .toMap cur, .null =>
      match cur with
      | none => .ok (some .nil)
      | some m => .ok (some (.map m))
    | .toInterface, _ => (Unmarshal text resp).map some
    | .toMap _, _ => (Unmarshal text resp).map some
    | _, _ => (toGo doc).map (fun _ => none)

/-- The method `Request.DoRequest`.  `transport` is what `client.Do` returns: the
response, or the message of the transport error. -/
def Request.DoRequest (req : Request) (transport : Except GoString Response) (resp : Target) :
    DoRequestResult :=
  let l0 : LogEntry :=
    { level := .debug,
      format := "[Request.DoRequest, id: %s] start connection[to: %s, method: %s, content: %s]",
      args := [.str req.ID, .str req.URL, .str req.Method, .str req.Content] }
  match transport with
  | .error e =>
    { response := none,
      err := some (xerr.New 1003 (bytesOf "Failed to request to remote server[url: %s], error = %s")
        [.str req.URL, .str e]),
      stored := none,
      log := [l0, { level := .error,
                    format := "[Request.DoRequest] Failed to talk with remote server, error = %s, id: %s",
                    args := [.str e, .str req.ID] }] }
  | .ok response =>
    if response.StatusCode < 200 ∨ response.StatusCode ≥ 300 then
      { response := none,
        err := some (xerr.New 1003 (bytesOf "Error returns with code: %d, msg: %s")
          [.int response.StatusCode, .str response.Status]),
        stored := none,
        log := [l0, { level := .error,
                      format := "[Request.DoRequest] Error returns with code: %d, msg: %s",
                      args := [.int response.StatusCode, .str response.Status] }] }
    else
      match resp with
      | .nil => { response := some response, err := none, stored := none, log := [l0] }
      | target =>
        match response.Body.readAll with
        | (_, some e, body1) =>
          { response := none, err := some (xerr.New 1003 e []), stored := none,
            log := [l0, { level := .error,
                          format := "[Request.DoRequest, id: %s] Failed to read body of response: %#+v",
                          args := [.str req.ID, .reader body1] }] }
        | (text, none, _) =>
          match unmarshalVia text target with
          | .error e =>
            { response := none, err := some (xerr.New 1003 e.Error []), stored := none,
              log := [l0, { level := .error,
                            format := "[Request.DoRequest, id: %s] json unmarshal, error: %s",
                            args := [.str req.ID, .str e.Error] }] }
          | .ok stored => { response := none, err := none, stored := stored, log := [l0] }

/-- The function `Serialize`: the JSON text of the map, or the empty string (and a log
line) when encoding fails.  The map is handed to `json.Marshal` through a
pointer; a nil map (`none`) is written `null`, as the nil interface is. -/
def Serialize (source : Option (List (GoString × GoValue))) : GoString × List LogEntry :=
  match Marshal (match source with
    | none => .nil
    | some kvs => .map kvs) with
  | .error e =>
    ([], [{ level := .error,
            format := "[Serialize] Failed to convert map to json byte, error: %s",
            args := [.str e.Error] }])
  | .ok text => (text, [])

structure GetRequestBodyResult where
  /-- the returned value: nil, or the map `alter` -/
  value : Option (List (GoString × Decoded))
  err : Option Xerr
  /-- the request afterwards -/
  req : HttpRequest
  /-- what `v` points to afterwards, when the body was decoded into it -/
  stored : Option Decoded
  log : List LogEntry

/-- The function `GetRequestBody`.  The constant `xerr.ERR_CODE_IO` is not among the
sources and is a parameter. -/
def GetRequestBody ( ERR_CODE_IO : Int) (req : HttpRequest) (v : Target) : GetRequestBodyResult :=
  let alter : List (GoString × Decoded) := []
  match req.Body.readAll with
  | (_, some e, body1) =>
    { value := none,
      err := some (xerr.New ERR_CODE_IO (bytesOf "Failed to copy req body, error = %s") [.str e]),
      req := { req with Body := body1 },
      stored := none,
      log := [{ level := .error,
                format := "[GetRequestBody] Failed to copy req body error, request = %v, error = %s",
                args := [.reader body1, .str e] }] }
  | (text, none, _) =>
    let req1 : HttpRequest := { req with Body := Body.ofString text }
    let decoded :=
      match v with
      | .nil => Unmarshal text (.value "map[string]interface \x7b\x7d")
      | target => Unmarshal text target
    match decoded with
    | .error e =>
      { value := none,
        err := some (xerr.New ERR_CODE_IO (bytesOf "Failed to unmarshal json body, error = %s")
          [.str e.Error]),
        req := req1,
        stored := none,
        log := [{ level := .error,
                  format := "[GetRequestBody] Failed to unmarshal json body error, text = %s, error = %s",
                  args := [.str text, .str e.Error] }] }
    | .ok stored => { value := some alter, err := none, req := req1, stored := some stored, log := [] }

/-- A run that either returns or panics with a message. -/
structure Outcome (α : Type) where
  log : List LogEntry
  result : Except GoString α

/-- The function `GetResponseData`: the envelope of an error and a payload, JSON encoded.
A payload that cannot be encoded makes it panic. -/
def GetResponseData (err : Option GoError) (data : GoValue) : Outcome GoString :=
  let resp : HTTPResponse :=
    match err with
    | none => { Code := 0, Msg := bytesOf "ok", Data := data }
    | some (.app v) => { Code := v.Code, Msg := v.Error, Data := data }
    | some (.other m) => { Code := -1, Msg := (GoError.other m).Error, Data := data }
  match MarshalStruct resp.fields with
  | .error we =>
    match err with
    | none =>
      { log := [],
        result := .error (bytesOf "runtime error: invalid memory address or nil pointer dereference") }
    | some e =>
      { log := [{ level := .error, format := "[GetResponseData] Failed, %s, data = %v",
                  args := [.str e.Error, .value data] }],
        result := .error (Sprintf (bytesOf "[GetResponseData] Failed, %s") [.str we.Error]) }
  | .ok r => { log := [], result := .ok r }

/-- The request body as the logging helpers show it: read to its end, and
the empty string when that read fails. -/
def loggedBody (req : HttpRequest) : GoString :=
  match req.Body.readAll with
  | (b_body, none, _) => b_body
  | (_, some _, _) => []

/-- The request after its body was read to the end. -/
def drained (req : HttpRequest) : HttpRequest :=
  { req with Body := req.Body.readAll.2.2 }

/-- The function `LogGetResponseData`: the envelope, the request afterwards and the log. -/
def LogGetResponseData (req : HttpRequest) (err : Option GoError) (data : GoValue) :
    Outcome (GoString × HttpRequest) :=
  match GetResponseData err data with
  | { log := l, result := .error p } => { log := l, result := .error p }
  | { log := l, result := .ok ret } =>
    { log := l ++
        [{ level := .debug, format := "HANDLE_LOG: url = %s, method: %s, request = %s",
           args := [.str req.RequestURI, .str req.Method, .str (loggedBody req)] },
         { level := .debug, format := "HANDLE_RESPONSE: response = %s", args := [.str ret] }],
      result := .ok (ret, drained req) }

/-- The function `LogGetResponseDataEx`; `now` is what `time.Now().UnixNano()` returns. -/
def LogGetResponseDataEx (now : Int) (req : HttpRequest) (sTime : Int) (err : Option GoError)
    (data : GoValue) : Outcome (GoString × HttpRequest) :=
  match GetResponseData err data with
  | { log := l, result := .error p } => { log := l, result := .error p }
  | { log := l, result := .ok ret } =>
    let cost := wrap64 (now - sTime)
    { log := l ++
        [{ level := .info, format := "HANDLE_TIME: %d ms", args := [.int (Int.tdiv cost 1000000)] },
         { level := .info, format := "HANDLE_LOG: url = %s, method: %s, request = %s",
           args := [.str req.RequestURI, .str req.Method, .str (loggedBody req)] },
         { level := .debug, format := "HANDLE_RESPONSE: response = %s", args := [.str ret] }],
      result := .ok (ret, drained req) }

/-- The function `ResponseWithLog`: the writer and the request afterwards, and the log. -/
def ResponseWithLog (now : Int) (w : ResponseWriter) (req : HttpRequest) (sTime : Int)
    (err : Option GoError) (data : GoValue) : Outcome (ResponseWriter × HttpRequest) :=
  match GetResponseData err data with
  | { log := l, result := .error p } => { log := l, result := .error p }
  | { log := l, result := .ok ret } =>
    let w1 := w.Write ret
    let cost := wrap64 (now - sTime)
    { log := l ++
        [{ level := .info, format := "HANDLE_TIME: %d ms", args := [.int (Int.tdiv cost 1000000)] },
         { level := .info, format := "HANDLE_LOG: url = %s, method: %s, request = %s",
           args := [.str req.RequestURI, .str req.Method, .str (loggedBody req)] },
         { level := .debug, format := "HANDLE_RESPONSE: response = %s", args := [.str ret] }],
      result := .ok (w1, drained req) }

/-! ## The encoded payload read back -/

mutual
/-- The document a payload encodes to: an `int` is the number with its
decimal numeral, a string is its text, a byte that is part of no valid UTF-8
sequence standing as U+FFFD. -/
def GoValue.toJSON : GoValue → JSON
  | .nil => .null
  | .bool b => .bool b
  | .int n => .number (String.mk (formatInt n))
  | .string s => .string (textOf s)
  | .slice xs => .array (toJSONElems xs)
  | .map kvs => .object (toJSONMembers kvs)
  | .unsupported _ => .null
def toJSONElems : List GoValue → List JSON
  | [] => []
  | x :: rest => x.toJSON :: toJSONElems rest
def toJSONMembers : List (GoString × GoValue) → List (String × JSON)
  | [] => []
  | (k, v) :: rest => (textOf k, v.toJSON) :: toJSONMembers rest
end

mutual
/-- Whether a document shows a payload as it is: a number is the numeral of
the `int`, a string or key has exactly the bytes of the Go string, and arrays
and objects match element by element, in order. -/
def JSON.shows : JSON → GoValue → Bool
  | .null, .nil => true
  | .bool a, .bool b => a == b
  | .number lit, .int n => decide (lit.data = formatInt n)
  | .string s, .string b => decide (bytesOf s = b)
  | .array xs, .slice ys => showsElems xs ys
  | .object ms, .map kvs => showsMembers ms kvs
  | _, _ => false
def showsElems : List JSON → List GoValue → Bool
  | [], [] => true
  | x :: xs, y :: ys => x.shows y && showsElems xs ys
  | _, _ => false
def showsMembers : List (String × JSON) → List (GoString × GoValue) → Bool
  | [], [] => true
  | (k, x) :: ms, (b, y) :: kvs => decide (bytesOf k = b) && x.shows y && showsMembers ms kvs
  | _, _ => false
end

mutual
/-- Every string and every map key inside the value is valid UTF-8. -/
def GoValue.validUTF8 : GoValue → Bool
  | .string s => gowork.validUTF8 s
  | .slice xs => validUTF8Elems xs
  | .map kvs => validUTF8Members kvs
  | _ => true
def validUTF8Elems : List GoValue → Bool
  | [] => true
  | x :: rest => x.validUTF8 && validUTF8Elems rest
def validUTF8Members : List (GoString × GoValue) → Bool
  | [] => true
  | (k, v) :: rest => gowork.validUTF8 k && v.validUTF8 && validUTF8Members rest
end

/-- Keys strictly ascending: the entries of a Go map, which holds a key once,
in the order the encoder writes them. -/
def keysAscending {α : Type} (kvs : List (GoString × α)) : Prop :=
  (kvs.map Prod.fst).Pairwise (fun a b => keyLt a b = true)

mutual
/-- Every map inside the value is given by its entries in key order. -/
def GoValue.Canonical : GoValue → Prop
  | .slice xs => canonicalElems xs
  | .map kvs => keysAscending kvs ∧ canonicalMembers kvs
  | _ => True
def canonicalElems : List GoValue → Prop
  | [] => True
  | x :: rest => x.Canonical ∧ canonicalElems rest
def canonicalMembers : List (GoString × GoValue) → Prop
  | [] => True
  | (_, v) :: rest => v.Canonical ∧ canonicalMembers rest
end

/-- The payload can be JSON-encoded. -/
def JSONEncodable (data : GoValue) : Prop := unsupportedIn data = none

/-- No member holds a value that cannot be encoded. -/
def membersEncodable (kvs : List (GoString × GoValue)) : Prop :=
  ((unsupportedInMembers kvs).map Prod.snd).findSome? id = none

/-- The code `GetResponseData` puts in the envelope. -/
def envelopeCode : Option GoError → Int
  | none => 0
  | some (.app v) => v.Code
  | some (.other _) => -1

/-- The message `GetResponseData` puts in the envelope. -/
def envelopeMsg : Option GoError → GoString
  | none => bytesOf "ok"
  | some (.app v) => v.Error
  | some (.other m) => m

/-- The text `GetResponseData` writes for an error and a payload that can
be encoded: the three members in the order of the struct's fields. -/
def envelopeText (err : Option GoError) (data : GoValue) : List Char :=
  Char.ofNat 123 :: (joinMembers (encodeMembers
    [(bytesOf "code", .int (envelopeCode err)), (bytesOf "msg", .string (envelopeMsg err)),
      (bytesOf "data", data)]) ++ [Char.ofNat 125])

/-- What the decoder needs of the digits of `n`: their value, that they are
digits, and that a number other than 0 has no leading zero. -/
def DigitsOf (n : Nat) (ds : List Char) : Prop :=
  digitsVal 0 ds = n ∧ (∀ c ∈ ds, isDigit c = true) ∧
    ∃ c t, ds = c :: t ∧ (n ≠ 0 → c ≠ '0')

/-- The input after a value the encoder wrote: its end, or a comma, or a
closing bracket or brace. -/
def Delim (rest : List Char) : Prop :=
  rest = [] ∨ ∃ c t, rest = c :: t ∧ (c = ',' ∨ c = ']' ∨ c = Char.ofNat 125)

/-- The input starts with a character that is no space and closes nothing. -/
def ValueStart (cs : List Char) : Prop :=
  ∃ c t, cs = c :: t ∧ isSpace c = false ∧ c ≠ ']' ∧ c ≠ Char.ofNat 125

/-! ## UTF-8 read back -/

theorem toNat_ofNat_valid (n : Nat) (h : n < 0xD800 ∨ (0xDFFF < n ∧ n < 0x110000)) :
    (Char.ofNat n).toNat = n := by
  have hv : n.isValidChar := h
  simp only [Char.ofNat, hv, dite_true]
  simp [Char.ofNatAux, Char.toNat, UInt32.toNat]

theorem char_valid (c : Char) :
    c.toNat < 0xD800 ∨ (0xDFFF < c.toNat ∧ c.toNat < 0x110000) := c.valid

theorem char_eq_ofNat {c : Char} {n : Nat} (h : c.toNat = n) : c = Char.ofNat n := by
  rw [← h, Char.ofNat_toNat]

theorem acceptRange_two {p0 : Nat} (h : 0xC2 ≤ p0 ∧ p0 ≤ 0xDF) :
    acceptRange p0 = some (2, 0x80, 0xBF) := by
  unfold acceptRange; rw [if_pos h]

theorem acceptRange_three {p0 : Nat} (h : 0xE0 ≤ p0 ∧ p0 ≤ 0xEF) :
    acceptRange p0 = some (3, (if p0 = 0xE0 then 0xA0 else 0x80), (if p0 = 0xED then 0x9F else 0xBF)) := by
  unfold acceptRange
  split_ifs <;> first | rfl | (exfalso; omega)

theorem acceptRange_four {p0 : Nat} (h : 0xF0 ≤ p0 ∧ p0 ≤ 0xF4) :
    acceptRange p0 = some (4, (if p0 = 0xF0 then 0x90 else 0x80), (if p0 = 0xF4 then 0x8F else 0xBF)) := by
  unfold acceptRange
  split_ifs <;> first | rfl | (exfalso; omega)

theorem decodeStep_one (p0 : Nat) (r : List Nat) (h : p0 < 0x80) :
    decodeStep (p0 :: r) = some ({ rune := Char.ofNat p0, valid := true, lead := p0 }, r) := by
  simp [decodeStep, h]

theorem decodeStep_two (p0 b1 : Nat) (r : List Nat) (h0 : 0xC2 ≤ p0 ∧ p0 ≤ 0xDF)
    (h1 : 0x80 ≤ b1 ∧ b1 ≤ 0xBF) :
    decodeStep (p0 :: b1 :: r) =
      some ({ rune := Char.ofNat (p0 % 32 * 64 + b1 % 64), valid := true, lead := p0 }, r) := by
  have hn : ¬ p0 < 0x80 := by omega
  simp only [decodeStep, hn, if_false, acceptRange_two h0]
  simp [h1]

theorem decodeStep_three (p0 b1 b2 : Nat) (r : List Nat) (h0 : 0xE0 ≤ p0 ∧ p0 ≤ 0xEF)
    (h1 : (if p0 = 0xE0 then 0xA0 else 0x80) ≤ b1 ∧ b1 ≤ (if p0 = 0xED then 0x9F else 0xBF))
    (h2 : 0x80 ≤ b2 ∧ b2 ≤ 0xBF) :
    decodeStep (p0 :: b1 :: b2 :: r) =
      some ({ rune := Char.ofNat (p0 % 16 * 4096 + b1 % 64 * 64 + b2 % 64), valid := true,
              lead := p0 }, r) := by
  have hn : ¬ p0 < 0x80 := by omega
  simp only [decodeStep, hn, if_false, acceptRange_three h0]
  simp [h1, isCont, h2]

theorem decodeStep_four (p0 b1 b2 b3 : Nat) (r : List Nat) (h0 : 0xF0 ≤ p0 ∧ p0 ≤ 0xF4)
    (h1 : (if p0 = 0xF0 then 0x90 else 0x80) ≤ b1 ∧ b1 ≤ (if p0 = 0xF4 then 0x8F else 0xBF))
    (h2 : 0x80 ≤ b2 ∧ b2 ≤ 0xBF) (h3 : 0x80 ≤ b3 ∧ b3 ≤ 0xBF) :
    decodeStep (p0 :: b1 :: b2 :: b3 :: r) =
      some ({ rune := Char.ofNat (p0 % 8 * 262144 + b1 % 64 * 4096 + b2 % 64 * 64 + b3 % 64),
              valid := true, lead := p0 }, r) := by
  have hn : ¬ p0 < 0x80 := by omega
  simp only [decodeStep, hn, if_false, acceptRange_four h0]
  simp [h1, isCont, h2, h3]

/-- Decoding what `encodeRune` wrote gives the character back. -/
theorem decodeStep_encodeRune (c : Char) (rest : List Nat) :
    ∃ lead, decodeStep (encodeRune c ++ rest) =
      some ({ rune := c, valid := true, lead := lead }, rest) := by
  have hv := char_valid c
  by_cases h1 : c.toNat < 0x80
  · refine ⟨c.toNat, ?_⟩
    simp only [encodeRune, h1, if_true, List.cons_append, List.nil_append]
    rw [decodeStep_one _ _ h1, Char.ofNat_toNat]
  · by_cases h2 : c.toNat < 0x800
    · refine ⟨0xC0 + c.toNat / 64, ?_⟩
      simp only [encodeRune, h1, h2, if_true, if_false, List.cons_append, List.nil_append]
      rw [decodeStep_two _ _ _ (by omega) (by omega)]
      have : (0xC0 + c.toNat / 64) % 32 * 64 + (0x80 + c.toNat % 64) % 64 = c.toNat := by omega
      rw [this, Char.ofNat_toNat]
    · by_cases h3 : c.toNat < 0x10000
      · refine ⟨0xE0 + c.toNat / 4096, ?_⟩
        simp only [encodeRune, h1, h2, h3, if_true, if_false, List.cons_append, List.nil_append]
        rw [decodeStep_three _ _ _ _ (by omega) (by split_ifs <;> omega) (by omega)]
        have : (0xE0 + c.toNat / 4096) % 16 * 4096 + (0x80 + c.toNat / 64 % 64) % 64 * 64 +
            (0x80 + c.toNat % 64) % 64 = c.toNat := by omega
        rw [this, Char.ofNat_toNat]
      · refine ⟨0xF0 + c.toNat / 262144, ?_⟩
        simp only [encodeRune, h1, h2, h3, if_false, List.cons_append, List.nil_append]
        rw [decodeStep_four _ _ _ _ _ (by omega) (by split_ifs <;> omega) (by omega) (by omega)]
        have : (0xF0 + c.toNat / 262144) % 8 * 262144 + (0x80 + c.toNat / 4096 % 64) % 64 * 4096 +
            (0x80 + c.toNat / 64 % 64) % 64 * 64 + (0x80 + c.toNat % 64) % 64 = c.toNat := by omega
        rw [this, Char.ofNat_toNat]


theorem acceptRange_eq {p0 sz lo hi : Nat} (h : acceptRange p0 = some (sz, lo, hi)) :
    (sz = 2 ∧ 0xC2 ≤ p0 ∧ p0 ≤ 0xDF ∧ lo = 0x80 ∧ hi = 0xBF) ∨
    (sz = 3 ∧ 0xE0 ≤ p0 ∧ p0 ≤ 0xEF ∧ lo = (if p0 = 0xE0 then 0xA0 else 0x80) ∧
      hi = (if p0 = 0xED then 0x9F else 0xBF)) ∨
    (sz = 4 ∧ 0xF0 ≤ p0 ∧ p0 ≤ 0xF4 ∧ lo = (if p0 = 0xF0 then 0x90 else 0x80) ∧
      hi = (if p0 = 0xF4 then 0x8F else 0xBF)) := by
  unfold acceptRange at h
  split_ifs at h <;> simp at h <;> obtain ⟨rfl, rfl, rfl⟩ := h <;> simp_all <;> omega

theorem encodeRune_of_toNat (c : Char) (n : Nat) (h : c.toNat = n) :
    encodeRune c =
      if n < 0x80 then [n]
      else if n < 0x800 then [0xC0 + n / 64, 0x80 + n % 64]
      else if n < 0x10000 then [0xE0 + n / 4096, 0x80 + n / 64 % 64, 0x80 + n % 64]
      else [0xF0 + n / 262144, 0x80 + n / 4096 % 64, 0x80 + n / 64 % 64, 0x80 + n % 64] := by
  subst h; rfl

/-- Encoding the rune of a valid piece gives back the bytes it was read from. -/
theorem encodeRune_decodeStep (bs rest : List Nat) (p : Piece)
    (h : decodeStep bs = some (p, rest)) (hv : p.valid = true) :
    encodeRune p.rune ++ rest = bs := by
  cases bs with
  | nil => simp [decodeStep] at h
  | cons p0 t =>
    by_cases h0 : p0 < 0x80
    · rw [decodeStep_one _ _ h0] at h
      simp only [Option.some.injEq, Prod.mk.injEq] at h
      obtain ⟨rfl, rfl⟩ := h
      rw [encodeRune_of_toNat _ p0 (toNat_ofNat_valid _ (by omega))]
      simp [h0]
    · simp only [decodeStep, h0, if_false] at h
      split at h
      · rename_i lo hi b1 r hacc
        rcases acceptRange_eq hacc with ⟨_, h1, h2, rfl, rfl⟩ | ⟨hc, _⟩ | ⟨hc, _⟩
        · split_ifs at h with hb
          · simp only [Option.some.injEq, Prod.mk.injEq] at h
            obtain ⟨rfl, rfl⟩ := h
            rw [encodeRune_of_toNat _ _ (toNat_ofNat_valid _ (by omega))]
            have e1 : ¬ p0 % 32 * 64 + b1 % 64 < 0x80 := by omega
            have e2 : p0 % 32 * 64 + b1 % 64 < 0x800 := by omega
            simp only [e1, e2, if_true, if_false, List.cons_append, List.nil_append]
            have e3 : 0xC0 + (p0 % 32 * 64 + b1 % 64) / 64 = p0 := by omega
            have e4 : 0x80 + (p0 % 32 * 64 + b1 % 64) % 64 = b1 := by omega
            rw [e3, e4]
          · simp only [Option.some.injEq, Prod.mk.injEq] at h
            obtain ⟨rfl, rfl⟩ := h
            simp at hv
        · omega
        · omega
      · rename_i lo hi b1 b2 r hacc
        rcases acceptRange_eq hacc with ⟨hc, _⟩ | ⟨_, h1, h2, rfl, rfl⟩ | ⟨hc, _⟩
        · omega
        · by_cases hb : (if p0 = 0xE0 then 0xA0 else 0x80) ≤ b1 ∧
              b1 ≤ (if p0 = 0xED then 0x9F else 0xBF) ∧ isCont b2 = true
          · rw [if_pos hb] at h
            simp only [Option.some.injEq, Prod.mk.injEq] at h
            obtain ⟨rfl, rfl⟩ := h
            obtain ⟨hb1, hb2, hb3⟩ := hb
            simp only [isCont, decide_eq_true_eq] at hb3
            have hlo : (if p0 = 0xE0 then 0xA0 else 0x80) ≤ b1 := hb1
            have hhi : b1 ≤ (if p0 = 0xED then 0x9F else 0xBF) := hb2
            have hb1' : 0x80 ≤ b1 ∧ b1 ≤ 0xBF ∧ (p0 = 0xE0 → 0xA0 ≤ b1) ∧ (p0 = 0xED → b1 ≤ 0x9F) := by
              split_ifs at hlo hhi <;> omega
            rw [encodeRune_of_toNat _ _ (toNat_ofNat_valid _ (by omega))]
            have e1 : ¬ p0 % 16 * 4096 + b1 % 64 * 64 + b2 % 64 < 0x80 := by omega
            have e2 : ¬ p0 % 16 * 4096 + b1 % 64 * 64 + b2 % 64 < 0x800 := by omega
            have e3 : p0 % 16 * 4096 + b1 % 64 * 64 + b2 % 64 < 0x10000 := by omega
            simp only [e1, e2, e3, if_true, if_false, List.cons_append, List.nil_append]
            have f1 : 0xE0 + (p0 % 16 * 4096 + b1 % 64 * 64 + b2 % 64) / 4096 = p0 := by omega
            have f2 : 0x80 + (p0 % 16 * 4096 + b1 % 64 * 64 + b2 % 64) / 64 % 64 = b1 := by omega
            have f3 : 0x80 + (p0 % 16 * 4096 + b1 % 64 * 64 + b2 % 64) % 64 = b2 := by omega
            rw [f1, f2, f3]
          · rw [if_neg hb] at h
            simp only [Option.some.injEq, Prod.mk.injEq] at h
            obtain ⟨rfl, rfl⟩ := h
            simp at hv
        · omega
      · rename_i lo hi b1 b2 b3 r hacc
        rcases acceptRange_eq hacc with ⟨hc, _⟩ | ⟨hc, _⟩ | ⟨_, h1, h2, rfl, rfl⟩
        · omega
        · omega
        · by_cases hb : (if p0 = 0xF0 then 0x90 else 0x80) ≤ b1 ∧
              b1 ≤ (if p0 = 0xF4 then 0x8F else 0xBF) ∧ isCont b2 = true ∧ isCont b3 = true
          · rw [if_pos hb] at h
            simp only [Option.some.injEq, Prod.mk.injEq] at h
            obtain ⟨rfl, rfl⟩ := h
            obtain ⟨hb1, hb2, hb3, hb4⟩ := hb
            simp only [isCont, decide_eq_true_eq] at hb3 hb4
            have hlo : (if p0 = 0xF0 then 0x90 else 0x80) ≤ b1 := hb1
            have hhi : b1 ≤ (if p0 = 0xF4 then 0x8F else 0xBF) := hb2
            have hb1' : 0x80 ≤ b1 ∧ b1 ≤ 0xBF ∧ (p0 = 0xF0 → 0x90 ≤ b1) ∧ (p0 = 0xF4 → b1 ≤ 0x8F) := by
              split_ifs at hlo hhi <;> omega
            rw [encodeRune_of_toNat _ _ (toNat_ofNat_valid _ (by omega))]
            have e1 : ¬ p0 % 8 * 262144 + b1 % 64 * 4096 + b2 % 64 * 64 + b3 % 64 < 0x80 := by omega
            have e2 : ¬ p0 % 8 * 262144 + b1 % 64 * 4096 + b2 % 64 * 64 + b3 % 64 < 0x800 := by omega
            have e3 : ¬ p0 % 8 * 262144 + b1 % 64 * 4096 + b2 % 64 * 64 + b3 % 64 < 0x10000 := by
              omega
            simp only [e1, e2, e3, if_false, List.cons_append, List.nil_append]
            have f1 : 0xF0 + (p0 % 8 * 262144 + b1 % 64 * 4096 + b2 % 64 * 64 + b3 % 64) / 262144
                = p0 := by omega
            have f2 : 0x80 + (p0 % 8 * 262144 + b1 % 64 * 4096 + b2 % 64 * 64 + b3 % 64) / 4096 % 64
                = b1 := by omega
            have f3 : 0x80 + (p0 % 8 * 262144 + b1 % 64 * 4096 + b2 % 64 * 64 + b3 % 64) / 64 % 64
                = b2 := by omega
            have f4 : 0x80 + (p0 % 8 * 262144 + b1 % 64 * 4096 + b2 % 64 * 64 + b3 % 64) % 64
                = b3 := by omega
            rw [f1, f2, f3, f4]
          · rw [if_neg hb] at h
            simp only [Option.some.injEq, Prod.mk.injEq] at h
            obtain ⟨rfl, rfl⟩ := h
            simp at hv
      · simp only [Option.some.injEq, Prod.mk.injEq] at h
        obtain ⟨rfl, rfl⟩ := h
        simp at hv

theorem encodeRune_length (c : Char) : 1 ≤ (encodeRune c).length := by
  unfold encodeRune
  split_ifs <;> simp

theorem utf8_length (cs : List Char) : cs.length ≤ (utf8 cs).length := by
  induction cs with
  | nil => simp [utf8]
  | cons c cs ih =>
    simp only [utf8, List.length_append, List.length_cons]
    have := encodeRune_length c
    omega

theorem piecesCore_nil (fuel : Nat) : piecesCore fuel [] = [] := by
  cases fuel <;> rfl

theorem piecesCore_utf8 (cs : List Char) : ∀ fuel, cs.length ≤ fuel →
    (piecesCore fuel (utf8 cs)).map (fun p => p.rune) = cs ∧
      (piecesCore fuel (utf8 cs)).all (fun p => p.valid) = true := by
  induction cs with
  | nil => intro fuel _; simp [utf8, piecesCore_nil]
  | cons c cs ih =>
    intro fuel hf
    cases fuel with
    | zero => simp at hf
    | succ f =>
      obtain ⟨lead, hl⟩ := decodeStep_encodeRune c (utf8 cs)
      obtain ⟨h1, h2⟩ := ih f (by simpa using hf)
      simp only [utf8, piecesCore, hl, List.map_cons, List.all_cons, h1, h2, Bool.and_self]
      exact ⟨trivial, trivial⟩

theorem runes_utf8 (cs : List Char) : runes (utf8 cs) = cs :=
  (piecesCore_utf8 cs _ (utf8_length cs)).1

theorem validUTF8_utf8 (cs : List Char) : validUTF8 (utf8 cs) = true :=
  (piecesCore_utf8 cs _ (utf8_length cs)).2

theorem textOf_bytesOf (s : String) : textOf (bytesOf s) = s := by
  unfold textOf bytesOf
  rw [runes_utf8]

theorem decodeStep_eq_none {bs : List Nat} (h : decodeStep bs = none) : bs = [] := by
  cases bs with
  | nil => rfl
  | cons p0 t =>
    exfalso
    by_cases h0 : p0 < 0x80
    · simp [decodeStep, h0] at h
    · simp only [decodeStep, h0, if_false] at h
      split at h <;> first | split_ifs at h | simp at h

theorem piecesCore_valid : ∀ (fuel : Nat) (bs : List Nat), bs.length ≤ fuel →
    (piecesCore fuel bs).all (fun p => p.valid) = true →
      utf8 ((piecesCore fuel bs).map (fun p => p.rune)) = bs := by
  intro fuel
  induction fuel with
  | zero =>
    intro bs hl _
    have : bs = [] := List.length_eq_zero.1 (by omega)
    subst this
    rfl
  | succ f ih =>
    intro bs hl hv
    cases hd : decodeStep bs with
    | none =>
      rw [decodeStep_eq_none hd]
      rfl
    | some pr =>
      obtain ⟨p, rest⟩ := pr
      simp only [piecesCore, hd, List.all_cons, Bool.and_eq_true] at hv ⊢
      have hb := encodeRune_decodeStep bs rest p hd hv.1
      have hlen : rest.length ≤ f := by
        have h1 := encodeRune_length p.rune
        have h2 := congrArg List.length hb
        simp only [List.length_append] at h2
        omega
      simp only [List.map_cons, utf8]
      rw [ih rest hlen hv.2, hb]

/-- The bytes of a valid UTF-8 string are those of its text. -/
theorem bytesOf_textOf (bs : GoString) (h : validUTF8 bs = true) : bytesOf (textOf bs) = bs :=
  piecesCore_valid _ bs (Nat.le_refl _) h

theorem decodeStep_invalid {bs rest : List Nat} {p : Piece} (h : decodeStep bs = some (p, rest))
    (hv : p.valid = false) : p.rune = Char.ofNat 0xFFFD := by
  cases bs with
  | nil => simp [decodeStep] at h
  | cons p0 t =>
    by_cases h0 : p0 < 0x80
    · simp only [decodeStep, h0, if_true, Option.some.injEq, Prod.mk.injEq] at h
      obtain ⟨rfl, rfl⟩ := h
      simp at hv
    · simp only [decodeStep, h0, if_false] at h
      split at h <;> (try split_ifs at h) <;> simp only [Option.some.injEq, Prod.mk.injEq] at h <;>
        obtain ⟨rfl, rfl⟩ := h <;> first | rfl | simp at hv

theorem piecesCore_invalid : ∀ (fuel : Nat) (bs : List Nat), ∀ p ∈ piecesCore fuel bs,
    p.valid = false → p.rune = Char.ofNat 0xFFFD := by
  intro fuel
  induction fuel with
  | zero => intro bs p hp; simp [piecesCore] at hp
  | succ f ih =>
    intro bs p hp hv
    cases hd : decodeStep bs with
    | none => simp [piecesCore, hd] at hp
    | some pr =>
      obtain ⟨q, rest⟩ := pr
      simp only [piecesCore, hd, List.mem_cons] at hp
      rcases hp with rfl | hp
      · exact decodeStep_invalid hd hv
      · exact ih rest p hp hv

/-! ## Decimal numbers read back -/

theorem digitChar_toNat (d : Nat) (h : d < 10) : (Char.ofNat (48 + d)).toNat = 48 + d := by
  interval_cases d <;> rfl

theorem decimalCore_append (fuel n : Nat) (acc : List Char) :
    decimalCore fuel n acc = decimalCore fuel n [] ++ acc := by
  induction fuel generalizing n acc with
  | zero => simp [decimalCore]
  | succ f ih =>
    simp only [decimalCore]
    split
    · simp
    · rw [ih (n / 10) (_ :: acc), ih (n / 10) [_]]; simp

theorem digitsVal_append (a : Nat) (xs ys : List Char) :
    digitsVal a (xs ++ ys) = digitsVal (digitsVal a xs) ys := by
  simp [digitsVal, List.foldl_append]

theorem isDigit_digitChar (d : Nat) (h : d < 10) : isDigit (Char.ofNat (48 + d)) = true := by
  simp only [isDigit, digitChar_toNat d h, decide_eq_true_eq]; omega

theorem digitChar_ne_zero (d : Nat) (h : d < 10) (h0 : d ≠ 0) : Char.ofNat (48 + d) ≠ '0' := by
  intro hc
  have := congrArg Char.toNat hc
  rw [digitChar_toNat d h] at this
  have h48 : ('0' : Char).toNat = 48 := rfl
  omega

theorem decimalCore_digits (n : Nat) : ∀ fuel, n < fuel → DigitsOf n (decimalCore fuel n []) := by
  induction n using Nat.strong_induction_on with
  | _ n ih =>
    intro fuel hf
    cases fuel with
    | zero => omega
    | succ f =>
      simp only [decimalCore]
      have hmod : n % 10 < 10 := Nat.mod_lt _ (by omega)
      split
      · rename_i h0
        have hn : n % 10 = n := by omega
        refine ⟨?_, ?_, _, _, rfl, ?_⟩
        · have h1 := digitChar_toNat _ hmod
          simp only [digitsVal, List.foldl, h1]
          omega
        · intro c hc
          simp only [List.mem_singleton] at hc
          subst hc
          exact isDigit_digitChar _ hmod
        · intro hne
          exact digitChar_ne_zero _ hmod (by omega)
      · rename_i h0
        rw [decimalCore_append]
        have hlt : n / 10 < n := by omega
        obtain ⟨hv, hd, c, t, hct, hc0⟩ := ih (n / 10) hlt f (by omega)
        refine ⟨?_, ?_, c, t ++ [Char.ofNat (48 + n % 10)], ?_, ?_⟩
        · rw [digitsVal_append, hv]
          have h1 := digitChar_toNat _ hmod
          simp only [digitsVal, List.foldl, h1]
          omega
        · intro x hx
          simp only [List.mem_append, List.mem_singleton] at hx
          rcases hx with hx | hx
          · exact hd x hx
          · subst hx; exact isDigit_digitChar _ hmod
        · rw [hct]; rfl
        · intro _; exact hc0 h0

theorem formatNat_digits (n : Nat) : DigitsOf n (formatNat n) :=
  decimalCore_digits n (n + 1) (Nat.lt_succ_self n)

theorem spanDigits_append (ds rest : List Char) (hd : ∀ c ∈ ds, isDigit c = true)
    (hr : ∀ c t, rest = c :: t → isDigit c = false) :
    spanDigits (ds ++ rest) = (ds, rest) := by
  induction ds with
  | nil =>
    cases rest with
    | nil => rfl
    | cons c t => simp [spanDigits, hr c t rfl]
  | cons d ds ih =>
    have hd1 : isDigit d = true := hd d (List.mem_cons_self _ _)
    have ih1 := ih (fun c hc => hd c (List.mem_cons_of_mem _ hc))
    simp [spanDigits, hd1, ih1]

theorem Delim.not_digit {rest : List Char} (h : Delim rest) :
    ∀ c t, rest = c :: t → isDigit c = false := by
  intro c t hct
  rcases h with h | ⟨c1, t1, h, hc⟩
  · rw [h] at hct; cases hct
  · rw [h] at hct
    injection hct with h1 h2
    subst h1
    rcases hc with hc | hc | hc <;> subst hc <;> rfl

theorem scanFrac_delim {rest : List Char} (h : Delim rest) : scanFrac rest = .ok ([], rest) := by
  rcases h with h | ⟨c1, t1, h, hc⟩
  · subst h; rfl
  · subst h
    rcases hc with hc | hc | hc <;> subst hc <;> rfl

theorem scanExp_delim {rest : List Char} (h : Delim rest) : scanExp rest = .ok ([], rest) := by
  rcases h with h | ⟨c1, t1, h, hc⟩
  · subst h; rfl
  · subst h
    rcases hc with hc | hc | hc <;> subst hc <;> rfl

theorem scanInt_formatNat (n : Nat) (rest : List Char) (h : Delim rest) :
    scanInt (formatNat n ++ rest) = .ok (formatNat n, rest) := by
  obtain ⟨_, hd, c, t, hct, hc0⟩ := formatNat_digits n
  by_cases hn : n = 0
  · subst hn; rfl
  · rw [hct]
    have hcd : isDigit c = true := hd c (by rw [hct]; exact List.mem_cons_self _ _)
    have htd : ∀ x ∈ t, isDigit x = true := fun x hx => hd x (by rw [hct]; exact List.mem_cons_of_mem _ hx)
    simp only [List.cons_append, scanInt, hc0 hn, if_false, hcd, if_true]
    rw [spanDigits_append t rest htd h.not_digit]

theorem scanNumber_formatNat (sign : List Char) (n : Nat) (rest : List Char) (h : Delim rest) :
    scanNumber sign (formatNat n ++ rest) =
      .ok (.number (String.mk (sign ++ formatNat n)), rest) := by
  simp only [scanNumber, scanInt_formatNat n rest h, scanFrac_delim h, scanExp_delim h,
    List.append_nil]

/-! ## String literals read back, and maps in key order -/

theorem readRune_ascii (n : Nat) (hn : n < 128) (t : List Char) :
    readRune (appendRune (Char.ofNat n) ++ t) = .char (Char.ofNat n) t := by
  interval_cases n <;> rfl

theorem readRune_appendRune (c : Char) (t : List Char) :
    readRune (appendRune c ++ t) = .char c t := by
  by_cases h : c.toNat < 128
  · have hc : c = Char.ofNat c.toNat := char_eq_ofNat rfl
    rw [hc]
    exact readRune_ascii _ h t
  · by_cases h1 : c.toNat = 0x2028
    · rw [char_eq_ofNat h1]; rfl
    · by_cases h2 : c.toNat = 0x2029
      · rw [char_eq_ofNat h2]; rfl
      · have hq : c ≠ '"' := by
          intro hc; apply h; rw [hc]; decide
        have hb : c ≠ '\\' := by
          intro hc; apply h; rw [hc]; decide
        have h32 : ¬ c.toNat < 32 := by omega
        simp [appendRune, h, h1, h2, readRune, hq, hb, h32]

theorem readRune_appendPiece (p : Piece) (t : List Char) :
    readRune (appendPiece p ++ t) =
      .char (if p.valid = true then p.rune else Char.ofNat 0xFFFD) t := by
  unfold appendPiece
  by_cases hv : p.valid = true
  · simp only [hv, if_true]
    exact readRune_appendRune _ _
  · simp only [hv, if_false]
    rfl

theorem appendRune_length (c : Char) : 1 ≤ (appendRune c).length := by
  unfold appendRune
  split_ifs <;> simp

theorem appendPiece_length (p : Piece) : 1 ≤ (appendPiece p).length := by
  unfold appendPiece
  split
  · exact appendRune_length _
  · simp

theorem appendPieces_length (ps : List Piece) : ps.length ≤ (appendPieces ps).length := by
  induction ps with
  | nil => simp [appendPieces]
  | cons p ps ih =>
    simp only [appendPieces, List.length_append, List.length_cons]
    have := appendPiece_length p
    omega

theorem unquoteCore_appendPieces (ps : List Piece) (rest : List Char) :
    ∀ fuel, ps.length < fuel →
      unquoteCore fuel (appendPieces ps ++ '"' :: rest) =
        .ok (ps.map (fun p => if p.valid = true then p.rune else Char.ofNat 0xFFFD), rest) := by
  induction ps with
  | nil =>
    intro fuel hf
    cases fuel with
    | zero => simp at hf
    | succ f => rfl
  | cons p ps ih =>
    intro fuel hf
    cases fuel with
    | zero => simp at hf
    | succ f =>
      simp only [appendPieces, List.append_assoc]
      rw [unquoteCore, readRune_appendPiece]
      simp only
      rw [ih f (by simpa using hf)]
      rfl

theorem unquote_appendPieces (s : GoString) (rest : List Char) :
    unquote (appendPieces (pieces s) ++ '"' :: rest) = .ok (runes s, rest) := by
  unfold unquote
  rw [unquoteCore_appendPieces]
  · have hm : (pieces s).map (fun p => if p.valid = true then p.rune else Char.ofNat 0xFFFD) =
        (pieces s).map (fun p => p.rune) := by
      apply List.map_congr_left
      intro p hp
      by_cases hv : p.valid = true
      · simp [hv]
      · simp only [hv, if_false]
        exact (piecesCore_invalid _ _ p hp (by simpa using hv)).symm
    rw [hm]
    rfl
  · have := appendPieces_length (pieces s)
    simp only [List.length_append, List.length_cons]
    omega

theorem ltBytes_asymm : ∀ (a b : List Nat), ltBytes a b = true → ltBytes b a = false
  | _, [], h => by simp [ltBytes] at h
  | [], _ :: _, _ => by simp [ltBytes]
  | a :: as, b :: bs, h => by
    simp only [ltBytes, Bool.or_eq_true, decide_eq_true_eq, Bool.and_eq_true] at h
    simp only [ltBytes, Bool.or_eq_false_iff, decide_eq_false_iff_not, Bool.and_eq_false_imp,
      decide_eq_true_eq]
    rcases h with h | ⟨h1, h2⟩
    · constructor
      · omega
      · intro h3; omega
    · constructor
      · omega
      · intro _; exact ltBytes_asymm as bs h2

theorem keyLt_asymm {a b : GoString} (h : keyLt a b = true) : keyLt b a = false :=
  ltBytes_asymm _ _ h

theorem sortByKey_ascending {α : Type} :
    ∀ (l : List (GoString × α)), keysAscending l → sortByKey l = l
  | [], _ => rfl
  | [(k, a)], _ => rfl
  | (k, a) :: (k1, a1) :: rest, h => by
    have h1 : keysAscending ((k1, a1) :: rest) := by
      unfold keysAscending at h ⊢
      exact (List.pairwise_cons.1 h).2
    have hk : keyLt k k1 = true := by
      unfold keysAscending at h
      exact (List.pairwise_cons.1 h).1 k1 (by simp)
    rw [sortByKey, sortByKey_ascending _ h1, insertByKey, if_pos hk]

/-! ## Encoded values read back -/

theorem digit_cases {c : Char} (h : isDigit c = true) :
    ∃ k, 48 ≤ k ∧ k ≤ 57 ∧ c = Char.ofNat k := by
  simp only [isDigit, decide_eq_true_eq] at h
  exact ⟨c.toNat, h.1, h.2, char_eq_ofNat rfl⟩

theorem parseValue_digit (f : Nat) (c : Char) (r : List Char) (h : isDigit c = true) :
    parseValue (f + 1) (c :: r) = scanNumber [] (c :: r) := by
  obtain ⟨k, h1, h2, rfl⟩ := digit_cases h
  interval_cases k <;> rfl

theorem valueStart_digit {c : Char} (t : List Char) (h : isDigit c = true) :
    ValueStart (c :: t) := by
  obtain ⟨k, h1, h2, rfl⟩ := digit_cases h
  refine ⟨_, _, rfl, ?_⟩
  interval_cases k <;> decide

theorem formatNat_head (n : Nat) : ∃ c t, formatNat n = c :: t ∧ isDigit c = true := by
  obtain ⟨_, hd, c, t, hct, _⟩ := formatNat_digits n
  exact ⟨c, t, hct, hd c (by rw [hct]; exact List.mem_cons_self _ _)⟩

theorem skipSpace_cons {c : Char} (t : List Char) (h : isSpace c = false) :
    skipSpace (c :: t) = c :: t := by
  simp [skipSpace, h]

theorem parseValue_array (f : Nat) (es : List Char) (h : ValueStart es) :
    parseValue (f + 1) ('[' :: es) = withRest JSON.array (parseElems f es) := by
  obtain ⟨c, t, rfl, hs, h1, _⟩ := h
  rw [parseValue]
  have h0 : skipSpace ('[' :: c :: t) = '[' :: c :: t := rfl
  simp only [h0, skipSpace_cons t hs]
  simp [h1]

theorem parseValue_object (f : Nat) (t : List Char) :
    parseValue (f + 1) (Char.ofNat 123 :: '"' :: t) =
      withRest JSON.object (parseMembers f ('"' :: t)) := rfl

theorem parseElems_last (f : Nat) (cs rest : List Char) (v : JSON)
    (h : parseValue f cs = .ok (v, ']' :: rest)) :
    parseElems (f + 1) cs = .ok ([v], rest) := by
  rw [parseElems, h]; rfl

theorem parseElems_more (f : Nat) (cs rest : List Char) (v : JSON)
    (h : parseValue f cs = .ok (v, ',' :: rest)) :
    parseElems (f + 1) cs = withRest (fun vs => v :: vs) (parseElems f rest) := by
  rw [parseElems, h]; rfl

theorem parseMembers_last (f : Nat) (k : GoString) (t rest : List Char) (v : JSON)
    (h : parseValue f t = .ok (v, Char.ofNat 125 :: rest)) :
    parseMembers (f + 1) ('"' :: (appendPieces (pieces k) ++ '"' :: ':' :: t)) =
      .ok ([(textOf k, v)], rest) := by
  rw [parseMembers]
  have h0 : ∀ r, skipSpace ('"' :: r) = '"' :: r := fun _ => rfl
  simp only [h0, if_true, unquote_appendPieces]
  have h1 : skipSpace (':' :: t) = ':' :: t := rfl
  simp only [h1, if_true, h]
  rfl

theorem parseMembers_more (f : Nat) (k : GoString) (t rest : List Char) (v : JSON)
    (h : parseValue f t = .ok (v, ',' :: rest)) :
    parseMembers (f + 1) ('"' :: (appendPieces (pieces k) ++ '"' :: ':' :: t)) =
      withRest (fun kvs => (textOf k, v) :: kvs) (parseMembers f rest) := by
  rw [parseMembers]
  have h0 : ∀ r, skipSpace ('"' :: r) = '"' :: r := fun _ => rfl
  simp only [h0, if_true, unquote_appendPieces]
  have h1 : skipSpace (':' :: t) = ':' :: t := rfl
  simp only [h1, if_true, h]
  rfl


theorem keys_encodeMembers : ∀ (kvs : List (GoString × GoValue)),
    (encodeMembers kvs).map Prod.fst = kvs.map Prod.fst
  | [] => rfl
  | (k, v) :: rest => by simp [encodeMembers, keys_encodeMembers rest]

theorem keys_unsupportedInMembers : ∀ (kvs : List (GoString × GoValue)),
    (unsupportedInMembers kvs).map Prod.fst = kvs.map Prod.fst
  | [] => rfl
  | (k, v) :: rest => by simp [unsupportedInMembers, keys_unsupportedInMembers rest]

theorem encode_valueStart (v : GoValue) (he : unsupportedIn v = none) (rest : List Char) :
    ValueStart (encode v ++ rest) := by
  cases v with
  | nil => exact ⟨'n', _, rfl, by decide, by decide, by decide⟩
  | bool b => cases b
              · exact ⟨'f', _, rfl, by decide, by decide, by decide⟩
              · exact ⟨'t', _, rfl, by decide, by decide, by decide⟩
  | int n =>
    cases n with
    | ofNat m =>
      obtain ⟨c, t, hct, hd⟩ := formatNat_head m
      simp only [encode, formatInt, hct, List.cons_append]
      exact valueStart_digit _ hd
    | negSucc m => exact ⟨'-', _, rfl, by decide, by decide, by decide⟩
  | string s => exact ⟨'"', _, rfl, by decide, by decide, by decide⟩
  | slice xs => exact ⟨'[', _, rfl, by decide, by decide, by decide⟩
  | map kvs => exact ⟨Char.ofNat 123, _, rfl, by decide, by decide, by decide⟩
  | unsupported t => simp [unsupportedIn] at he

theorem unsupportedInElems_cons {x : GoValue} {xs : List GoValue}
    (h : unsupportedInElems (x :: xs) = none) :
    unsupportedIn x = none ∧ unsupportedInElems xs = none := by
  rw [unsupportedInElems] at h
  cases hx : unsupportedIn x with
  | none => rw [hx] at h; exact ⟨rfl, by simpa [Option.orElse] using h⟩
  | some t => rw [hx] at h; simp [Option.orElse] at h

theorem membersEncodable_cons {k : GoString} {v : GoValue} {kvs : List (GoString × GoValue)}
    (h : membersEncodable ((k, v) :: kvs)) :
    unsupportedIn v = none ∧ membersEncodable kvs := by
  unfold membersEncodable at h ⊢
  rw [unsupportedInMembers] at h
  cases hx : unsupportedIn v with
  | none => rw [hx] at h; exact ⟨rfl, by simpa using h⟩
  | some t => rw [hx] at h; simp at h

theorem encodeElems_valueStart (xs : List GoValue) (hne : xs ≠ [])
    (he : unsupportedInElems xs = none) (rest : List Char) :
    ValueStart (encodeElems xs ++ rest) := by
  match xs, hne, he with
  | [x], _, he => exact encode_valueStart x (unsupportedInElems_cons he).1 rest
  | x :: y :: r, _, he =>
    simp only [encodeElems, List.append_assoc]
    exact encode_valueStart x (unsupportedInElems_cons he).1 _

theorem delim_comma (t : List Char) : Delim (',' :: t) := Or.inr ⟨_, _, rfl, Or.inl rfl⟩
theorem delim_bracket (t : List Char) : Delim (']' :: t) := Or.inr ⟨_, _, rfl, Or.inr (Or.inl rfl)⟩
theorem delim_brace (t : List Char) : Delim (Char.ofNat 125 :: t) :=
  Or.inr ⟨_, _, rfl, Or.inr (Or.inr rfl)⟩

mutual
theorem parseValue_encode : ∀ (v : GoValue), unsupportedIn v = none → v.Canonical →
    ∀ (fuel : Nat) (rest : List Char), (encode v).length < fuel → Delim rest →
      parseValue fuel (encode v ++ rest) = .ok (v.toJSON, rest)
  | .nil, _, _, fuel, rest, hf, _ => by
    cases fuel with
    | zero => simp at hf
    | succ f => rfl
  | .bool true, _, _, fuel, rest, hf, _ => by
    cases fuel with
    | zero => simp at hf
    | succ f => rfl
  | .bool false, _, _, fuel, rest, hf, _ => by
    cases fuel with
    | zero => simp at hf
    | succ f => rfl
  | .int (Int.ofNat n), _, _, fuel, rest, hf, hr => by
    cases fuel with
    | zero => simp at hf
    | succ f =>
      obtain ⟨c, t, hct, hd⟩ := formatNat_head n
      have h1 : encode (.int (Int.ofNat n)) = formatNat n := rfl
      rw [h1]
      have h2 : parseValue (f + 1) (formatNat n ++ rest) = scanNumber [] (formatNat n ++ rest) := by
        rw [hct]; exact parseValue_digit f c _ hd
      rw [h2, scanNumber_formatNat [] n rest hr]
      rfl
  | .int (Int.negSucc n), _, _, fuel, rest, hf, hr => by
    cases fuel with
    | zero => simp at hf
    | succ f =>
      have h2 : parseValue (f + 1) (encode (.int (Int.negSucc n)) ++ rest) =
          scanNumber ['-'] (formatNat (n + 1) ++ rest) := rfl
      rw [h2, scanNumber_formatNat ['-'] (n + 1) rest hr]
      rfl
  | .string s, _, _, fuel, rest, hf, _ => by
    cases fuel with
    | zero => simp at hf
    | succ f =>
      have h2 : parseValue (f + 1) (encode (.string s) ++ rest) =
          withRest (fun t => JSON.string (String.mk t))
            (unquote (appendPieces (pieces s) ++ '"' :: rest)) := by
        simp only [encode, appendString, List.cons_append, List.append_assoc, List.nil_append]
        rfl
      rw [h2, unquote_appendPieces]
      rfl
  | .slice xs, he, hc, fuel, rest, hf, _ => by
    cases fuel with
    | zero => simp at hf
    | succ f =>
      by_cases hne : xs = []
      · subst hne; rfl
      · have he1 : unsupportedInElems xs = none := by simpa [unsupportedIn] using he
        have hc1 : canonicalElems xs := by simpa [GoValue.Canonical] using hc
        have h1 : encode (.slice xs) ++ rest = '[' :: (encodeElems xs ++ ']' :: rest) := by
          simp [encode]
        have hlen : (encodeElems xs).length + 1 < f := by
          simp only [encode, List.length_cons, List.length_append, List.length_nil] at hf
          omega
        rw [h1, parseValue_array f _ (encodeElems_valueStart xs hne he1 _),
          parseElems_encode xs hne he1 hc1 f rest hlen]
        rfl
  | .map kvs, he, hc, fuel, rest, hf, _ => by
    cases fuel with
    | zero => simp at hf
    | succ f =>
      have hasc : keysAscending kvs := by
        simp only [GoValue.Canonical] at hc; exact hc.1
      have hc1 : canonicalMembers kvs := by
        simp only [GoValue.Canonical] at hc; exact hc.2
      have hs1 : sortByKey (encodeMembers kvs) = encodeMembers kvs :=
        sortByKey_ascending _ (by unfold keysAscending at hasc ⊢; rw [keys_encodeMembers]; exact hasc)
      have hs2 : sortByKey (unsupportedInMembers kvs) = unsupportedInMembers kvs :=
        sortByKey_ascending _ (by unfold keysAscending at hasc ⊢; rw [keys_unsupportedInMembers]; exact hasc)
      have he1 : membersEncodable kvs := by
        unfold membersEncodable
        simpa [unsupportedIn, hs2] using he
      by_cases hne : kvs = []
      · subst hne; rfl
      · have h1 : encode (.map kvs) ++ rest =
            Char.ofNat 123 :: (joinMembers (encodeMembers kvs) ++ Char.ofNat 125 :: rest) := by
          simp only [encode, hs1, List.cons_append, List.append_assoc, List.nil_append]
        have hlen : (joinMembers (encodeMembers kvs)).length + 1 < f := by
          simp only [encode, hs1, List.length_cons, List.length_append, List.length_nil] at hf
          omega
        have hq : ∃ t, joinMembers (encodeMembers kvs) ++ Char.ofNat 125 :: rest = '"' :: t := by
          match kvs, hne with
          | [(k, v)], _ => exact ⟨_, rfl⟩
          | (k, v) :: kv :: r, _ => exact ⟨_, rfl⟩
        obtain ⟨t, ht⟩ := hq
        have hm := parseMembers_encode kvs hne he1 hc1 f rest hlen
        rw [h1, ht, parseValue_object, ← ht, hm]
        simp only [withRest, GoValue.toJSON]
  | .unsupported t, he, _, _, _, _, _ => by simp [unsupportedIn] at he
theorem parseElems_encode : ∀ (xs : List GoValue), xs ≠ [] → unsupportedInElems xs = none →
    canonicalElems xs → ∀ (fuel : Nat) (rest : List Char), (encodeElems xs).length + 1 < fuel →
      parseElems fuel (encodeElems xs ++ ']' :: rest) = .ok (toJSONElems xs, rest)
  | [], hne, _, _, _, _, _ => absurd rfl hne
  | [x], _, he, hc, fuel, rest, hf => by
    cases fuel with
    | zero => simp at hf
    | succ f =>
      have hx := parseValue_encode x (unsupportedInElems_cons he).1 hc.1 f (']' :: rest)
        (by simp only [encodeElems] at hf; omega) (delim_bracket _)
      simp only [encodeElems]
      rw [parseElems_last f _ rest _ hx]
      rfl
  | x :: y :: r, _, he, hc, fuel, rest, hf => by
    cases fuel with
    | zero => simp at hf
    | succ f =>
      simp only [encodeElems, List.length_append, List.length_cons] at hf
      have hx := parseValue_encode x (unsupportedInElems_cons he).1 hc.1 f
        (',' :: (encodeElems (y :: r) ++ ']' :: rest)) (by omega) (delim_comma _)
      have hr := parseElems_encode (y :: r) (by simp) (unsupportedInElems_cons he).2 hc.2 f rest
        (by omega)
      simp only [encodeElems, List.append_assoc, List.cons_append]
      rw [parseElems_more f _ _ _ hx, hr]
      rfl
theorem parseMembers_encode : ∀ (kvs : List (GoString × GoValue)), kvs ≠ [] →
    membersEncodable kvs → canonicalMembers kvs →
    ∀ (fuel : Nat) (rest : List Char), (joinMembers (encodeMembers kvs)).length + 1 < fuel →
      parseMembers fuel (joinMembers (encodeMembers kvs) ++ Char.ofNat 125 :: rest) =
        .ok (toJSONMembers kvs, rest)
  | [], hne, _, _, _, _, _ => absurd rfl hne
  | [(k, v)], _, he, hc, fuel, rest, hf => by
    cases fuel with
    | zero => simp at hf
    | succ f =>
      simp only [encodeMembers, joinMembers, appendString, List.length_append, List.length_cons] at hf
      have hx := parseValue_encode v (membersEncodable_cons he).1 hc.1 f (Char.ofNat 125 :: rest)
        (by omega) (delim_brace _)
      simp only [encodeMembers, joinMembers, appendString, List.append_assoc, List.cons_append,
        List.nil_append]
      rw [parseMembers_last f _ _ rest _ hx]
      rfl
  | (k, v) :: kv :: r, _, he, hc, fuel, rest, hf => by
    cases fuel with
    | zero => simp at hf
    | succ f =>
      have e1 : encodeMembers ((k, v) :: kv :: r) = (k, encode v) :: encodeMembers (kv :: r) := by
        rw [encodeMembers]
      obtain ⟨m, ms, hms⟩ : ∃ m ms, encodeMembers (kv :: r) = m :: ms := by
        cases kv; exact ⟨_, _, by rw [encodeMembers]⟩
      have e2 : joinMembers ((k, encode v) :: encodeMembers (kv :: r)) =
          appendString k ++ ':' :: encode v ++ ',' :: joinMembers (encodeMembers (kv :: r)) := by
        rw [hms]; rfl
      rw [e1, e2] at hf ⊢
      simp only [appendString, List.length_append, List.length_cons] at hf
      have hx := parseValue_encode v (membersEncodable_cons he).1 hc.1 f
        (',' :: (joinMembers (encodeMembers (kv :: r)) ++ Char.ofNat 125 :: rest)) (by omega)
        (delim_comma _)
      have hr := parseMembers_encode (kv :: r) (by simp) (membersEncodable_cons he).2 hc.2 f rest
        (by omega)
      simp only [appendString, List.append_assoc, List.cons_append, List.nil_append]
      rw [parseMembers_more f _ _ _ _ hx, hr]
      rfl
end

/-! ## The envelope -/

theorem structMembers_cons (f : StructField) (rest : List StructField)
    (ms : List (GoString × List Char))
    (ht : f.tag.data ≠ ['-']) (ho : f.omitEmpty = false) (hu : unsupportedIn f.value = none)
    (hr : structMembers rest = .ok ms) :
    structMembers (f :: rest) = .ok ((bytesOf f.key, encode f.value) :: ms) := by
  rw [structMembers]
  simp only [ht, ho, hu, hr, if_false, Bool.false_and, Bool.false_eq_true]

theorem structMembers_envelope (c : Int) (m : GoString) (data : GoValue)
    (he : unsupportedIn data = none) :
    structMembers (HTTPResponse.fields { Code := c, Msg := m, Data := data }) =
      .ok (encodeMembers [(bytesOf "code", .int c), (bytesOf "msg", .string m),
        (bytesOf "data", data)]) := by
  have h3 := structMembers_cons
    { name := "Data", tag := "data, omitempty", value := data, iface := true } [] []
    (show "data, omitempty".data ≠ ['-'] by decide) rfl he rfl
  have h2 := structMembers_cons
    { name := "Msg", tag := "msg, omitempty", value := .string m, iface := false } _ _
    (show "msg, omitempty".data ≠ ['-'] by decide) rfl rfl h3
  have h1 := structMembers_cons
    { name := "Code", tag := "code, omitempty", value := .int c, iface := false } _ _
    (show "code, omitempty".data ≠ ['-'] by decide) rfl rfl h2
  exact h1

theorem parseDocument_encode (v : GoValue) (he : unsupportedIn v = none) (hc : v.Canonical) :
    parseDocument (encode v) = .ok v.toJSON := by
  have h := parseValue_encode v he hc (2 * (encode v).length + 2) [] (by omega) (Or.inl rfl)
  rw [List.append_nil] at h
  unfold parseDocument
  rw [h]
  rfl

theorem readJSON_encode (v : GoValue) (he : unsupportedIn v = none) (hc : v.Canonical) :
    readJSON (utf8 (encode v)) = .ok v.toJSON := by
  unfold readJSON
  rw [runes_utf8, parseDocument_encode v he hc]

theorem parseDocument_members (kvs : List (GoString × GoValue)) (hne : kvs ≠ [])
    (he : membersEncodable kvs) (hc : canonicalMembers kvs) :
    parseDocument (Char.ofNat 123 :: (joinMembers (encodeMembers kvs) ++ [Char.ofNat 125])) =
      .ok (.object (toJSONMembers kvs)) := by
  have hq : ∃ t, joinMembers (encodeMembers kvs) ++ [Char.ofNat 125] = '"' :: t := by
    match kvs, hne with
    | [(k, v)], _ => exact ⟨_, rfl⟩
    | (k, v) :: kv :: r, _ => exact ⟨_, rfl⟩
  obtain ⟨t, ht⟩ := hq
  unfold parseDocument
  have hm := parseMembers_encode kvs hne he hc
    (2 * (Char.ofNat 123 :: (joinMembers (encodeMembers kvs) ++ [Char.ofNat 125])).length + 1) []
    (by simp only [List.length_cons, List.length_append]; omega)
  have hf : 2 * (Char.ofNat 123 :: (joinMembers (encodeMembers kvs) ++ [Char.ofNat 125])).length + 2
      = (2 * (Char.ofNat 123 :: (joinMembers (encodeMembers kvs) ++ [Char.ofNat 125])).length + 1) + 1 := rfl
  rw [hf, ht, parseValue_object, ← ht, hm]
  rfl

theorem GetResponseData_returns (err : Option GoError) (data : GoValue)
    (he : JSONEncodable data) :
    GetResponseData err data = { log := [], result := .ok (utf8 (envelopeText err data)) } := by
  have he1 : unsupportedIn data = none := he
  have hs := structMembers_envelope (envelopeCode err) (envelopeMsg err) data he1
  unfold envelopeText
  cases err with
  | none =>
    simp only [envelopeCode, envelopeMsg] at hs ⊢
    simp only [GetResponseData, MarshalStruct, hs]
  | some e =>
    cases e with
    | app v =>
      simp only [envelopeCode, envelopeMsg] at hs ⊢
      simp only [GetResponseData, MarshalStruct, hs]
    | other m =>
      simp only [envelopeCode, envelopeMsg] at hs ⊢
      simp only [GetResponseData, MarshalStruct, GoError.Error, hs]

theorem envelopeText_reads (err : Option GoError) (data : GoValue)
    (hc : data.Canonical) (he : JSONEncodable data) :
    readJSON (utf8 (envelopeText err data)) =
      .ok (.object [("code", .number (String.mk (formatInt (envelopeCode err)))),
        ("msg", .string (textOf (envelopeMsg err))), ("data", data.toJSON)]) := by
  have he1 : unsupportedIn data = none := he
  have hd := parseDocument_members [(bytesOf "code", .int (envelopeCode err)),
    (bytesOf "msg", .string (envelopeMsg err)), (bytesOf "data", data)] (by simp)
    (by unfold membersEncodable; simp [unsupportedInMembers, unsupportedIn, he1])
    ⟨trivial, trivial, hc, trivial⟩
  unfold readJSON envelopeText
  rw [runes_utf8, hd]
  rfl

theorem membersEncodable_of_map {kvs : List (GoString × GoValue)}
    (he : unsupportedIn (.map kvs) = none) (hc : GoValue.Canonical (.map kvs)) :
    membersEncodable kvs := by
  have hasc : keysAscending kvs := by
    simp only [GoValue.Canonical] at hc; exact hc.1
  have hs2 : sortByKey (unsupportedInMembers kvs) = unsupportedInMembers kvs :=
    sortByKey_ascending _ (by unfold keysAscending at hasc ⊢; rw [keys_unsupportedInMembers]; exact hasc)
  unfold membersEncodable
  simpa [unsupportedIn, hs2] using he

mutual
theorem shows_toJSON : ∀ (v : GoValue), unsupportedIn v = none → v.Canonical →
    v.validUTF8 = true → v.toJSON.shows v = true
  | .nil, _, _, _ => rfl
  | .bool b, _, _, _ => by simp [GoValue.toJSON, JSON.shows]
  | .int n, _, _, _ => by simp [GoValue.toJSON, JSON.shows]
  | .string s, _, _, h => by
    simp only [GoValue.validUTF8] at h
    simp [GoValue.toJSON, JSON.shows, bytesOf_textOf s h]
  | .slice xs, he, hc, h => by
    simp only [GoValue.validUTF8] at h
    simp only [GoValue.toJSON, JSON.shows]
    exact showsElems_toJSON xs (by simpa [unsupportedIn] using he)
      (by simpa [GoValue.Canonical] using hc) h
  | .map kvs, he, hc, h => by
    simp only [GoValue.validUTF8] at h
    simp only [GoValue.toJSON, JSON.shows]
    exact showsMembers_toJSON kvs (membersEncodable_of_map he hc)
      (by simp only [GoValue.Canonical] at hc; exact hc.2) h
  | .unsupported t, he, _, _ => by simp [unsupportedIn] at he
theorem showsElems_toJSON : ∀ (xs : List GoValue), unsupportedInElems xs = none →
    canonicalElems xs → validUTF8Elems xs = true → showsElems (toJSONElems xs) xs = true
  | [], _, _, _ => rfl
  | x :: rest, he, hc, h => by
    simp only [validUTF8Elems, Bool.and_eq_true] at h
    simp only [toJSONElems, showsElems, Bool.and_eq_true]
    exact ⟨shows_toJSON x (unsupportedInElems_cons he).1 hc.1 h.1,
      showsElems_toJSON rest (unsupportedInElems_cons he).2 hc.2 h.2⟩
theorem showsMembers_toJSON : ∀ (kvs : List (GoString × GoValue)), membersEncodable kvs →
    canonicalMembers kvs → validUTF8Members kvs = true →
    showsMembers (toJSONMembers kvs) kvs = true
  | [], _, _, _ => rfl
  | (k, v) :: rest, he, hc, h => by
    simp only [validUTF8Members, Bool.and_eq_true] at h
    simp only [toJSONMembers, showsMembers, Bool.and_eq_true, decide_eq_true_eq]
    exact ⟨⟨bytesOf_textOf k h.1.1, shows_toJSON v (membersEncodable_cons he).1 hc.1 h.1.2⟩,
      showsMembers_toJSON rest (membersEncodable_cons he).2 hc.2 h.2⟩
end

/-! ## The claims -/

theorem Sprintf_status (s : Int) (status : GoString) :
    Sprintf (bytesOf "Error returns with code: %d, msg: %s") [.int s, .str status] =
      bytesOf "Error returns with code: " ++ utf8 (formatInt s) ++ bytesOf ", msg: " ++ status := by
  have h : Sprintf (bytesOf "Error returns with code: %d, msg: %s") [.int s, .str status] =
      bytesOf "Error returns with code: " ++ (utf8 (formatInt s) ++ (bytesOf ", msg: " ++
        (status ++ []))) := rfl
  rw [h]
  simp

theorem Sprintf_copy (e : GoString) :
    Sprintf (bytesOf "Failed to copy req body, error = %s") [.str e] =
      bytesOf "Failed to copy req body, error = " ++ e := by
  have h : Sprintf (bytesOf "Failed to copy req body, error = %s") [.str e] =
      bytesOf "Failed to copy req body, error = " ++ (e ++ []) := rfl
  rw [h, List.append_nil]

theorem Sprintf_unmarshal (e : GoString) :
    Sprintf (bytesOf "Failed to unmarshal json body, error = %s") [.str e] =
      bytesOf "Failed to unmarshal json body, error = " ++ e := by
  have h : Sprintf (bytesOf "Failed to unmarshal json body, error = %s") [.str e] =
      bytesOf "Failed to unmarshal json body, error = " ++ (e ++ []) := rfl
  rw [h, List.append_nil]

theorem Unmarshal_value_fails (text : GoString) (t : String) :
    ∃ e, Unmarshal text (.value t) = .error e := by
  unfold Unmarshal
  cases checkValid (runes text) with
  | error e => exact ⟨_, rfl⟩
  | ok doc => exact ⟨_, rfl⟩

/-- A number is stored as the nearest `float64`: 2^53 + 1 becomes 2^53. -/
theorem Unmarshal_rounds_number :
    Unmarshal (bytesOf "9007199254740993") .toInterface = .ok (.float64 ⟨false, 1, 53⟩) := rfl

/-- A number beyond the largest `float64` is an error of the decoding, the
text being well-formed. -/
theorem Unmarshal_number_out_of_range :
    Unmarshal (bytesOf "[1,1e400]") .toInterface =
      .error (.UnmarshalTypeError "number 1e400" "float64") ∧
    (JsonError.UnmarshalTypeError "number 1e400" "float64").Error =
      bytesOf "json: cannot unmarshal number 1e400 into Go value of type float64" ∧
    readJSON (bytesOf "[1,1e400]") = .ok (.array [.number "1", .number "1e400"]) :=
  ⟨rfl, rfl, rfl⟩

/-- C1, as stated, fails: the string `"\xff"`, one byte that is no valid UTF-8,
can be JSON-encoded, but `GetResponseData(nil, "\xff")` returns the bytes
`{"code":0,"msg":"ok","data":"\ufffd"}`: read as JSON, and also decoded by
`json.Unmarshal`, `data` is the string U+FFFD of three bytes, not the
payload. -/
theorem GetResponseData_no_error_invalid_utf8 :
    JSONEncodable (.string [0xFF]) ∧
    GetResponseData none (.string [0xFF]) =
      { log := [],
        result := .ok (bytesOf "\x7b\"code\":0,\"msg\":\"ok\",\"data\":\"\\ufffd\"\x7d") } ∧
    readJSON (bytesOf "\x7b\"code\":0,\"msg\":\"ok\",\"data\":\"\\ufffd\"\x7d") =
      .ok (.object [("code", .number "0"), ("msg", .string "ok"), ("data", .string "\uFFFD")]) ∧
    JSON.shows (.string "\uFFFD") (.string [0xFF]) = false ∧
    Unmarshal (bytesOf "\x7b\"code\":0,\"msg\":\"ok\",\"data\":\"\\ufffd\"\x7d") .toInterface =
      .ok (.map [(bytesOf "code", .float64 ⟨false, 0, 0⟩), (bytesOf "data", .string [0xEF, 0xBF, 0xBD]),
        (bytesOf "msg", .string (bytesOf "ok"))]) :=
  ⟨rfl, rfl, rfl, rfl, rfl⟩

/-- C1, amended: for every payload `P` that can be JSON-encoded (a map inside
it given by its entries in key order), `GetResponseData(nil, P)` returns bytes
and logs nothing, and these bytes are the JSON object with exactly the three
keys `code = 0`, `msg = "ok"` and `data`, in this order, where `data` is `P`
with every byte of a string or map key that is part of no valid UTF-8
sequence replaced by U+FFFD (`null` for a nil payload); when all strings and
map keys in `P` are valid UTF-8, `data` shows `P` itself. -/
theorem GetResponseData_no_error (P : GoValue) (hc : P.Canonical) (he : JSONEncodable P) :
    ∃ bytes, GetResponseData none P = { log := [], result := .ok bytes } ∧
      readJSON bytes =
        .ok (.object [("code", .number "0"), ("msg", .string "ok"), ("data", P.toJSON)]) ∧
      (P.validUTF8 = true → P.toJSON.shows P = true) :=
  ⟨utf8 (envelopeText none P), GetResponseData_returns none P he,
    envelopeText_reads none P hc he, shows_toJSON P he hc⟩

theorem GetResponseData_no_error_witness :
    (∃ bytes, GetResponseData none .nil = { log := [], result := .ok bytes } ∧
      readJSON bytes =
        .ok (.object [("code", .number "0"), ("msg", .string "ok"), ("data", .null)])) ∧
    (∃ bytes, GetResponseData none
          (.map [(bytesOf "id", .int 7), (bytesOf "tags", .slice [.string (bytesOf "a<é"), .nil])]) =
        { log := [], result := .ok bytes } ∧
      readJSON bytes =
        .ok (.object [("code", .number "0"), ("msg", .string "ok"),
          ("data", .object [("id", .number "7"), ("tags", .array [.string "a<é", .null])])]) ∧
      JSON.shows (.object [("id", .number "7"), ("tags", .array [.string "a<é", .null])])
        (.map [(bytesOf "id", .int 7), (bytesOf "tags", .slice [.string (bytesOf "a<é"), .nil])])
          = true) :=
  ⟨let ⟨b, h1, h2, _⟩ := GetResponseData_no_error .nil trivial rfl
   ⟨b, h1, h2⟩,
   let ⟨b, h1, h2, h3⟩ := GetResponseData_no_error
     (.map [(bytesOf "id", .int 7), (bytesOf "tags", .slice [.string (bytesOf "a<é"), .nil])])
     ⟨by unfold keysAscending; decide, trivial, ⟨trivial, trivial, trivial⟩, trivial⟩ rfl
   ⟨b, h1, h2, h3 rfl⟩⟩

/-- C2, as stated, fails: for the application error with code 1003 whose
message is `no` followed by the byte `0xFF`, and the nil payload,
`GetResponseData` returns `{"code":1003,"msg":"no\ufffd","data":null}`: the
message read back ends in U+FFFD, three bytes, and is not the message the
error carries. -/
theorem GetResponseData_application_error_invalid_utf8 :
    GetResponseData (some (.app { code := 1003, msg := [0x6E, 0x6F, 0xFF] })) .nil =
      { log := [],
        result := .ok (bytesOf "\x7b\"code\":1003,\"msg\":\"no\\ufffd\",\"data\":null\x7d") } ∧
    readJSON (bytesOf "\x7b\"code\":1003,\"msg\":\"no\\ufffd\",\"data\":null\x7d") =
      .ok (.object [("code", .number "1003"), ("msg", .string "no\uFFFD"), ("data", .null)]) ∧
    bytesOf "no\uFFFD" = [0x6E, 0x6F, 0xEF, 0xBF, 0xBD] ∧
    bytesOf "no\uFFFD" ≠ (Xerr.mk 1003 [0x6E, 0x6F, 0xFF]).Error :=
  ⟨rfl, rfl, rfl, by decide⟩

/-- C2, amended: for every application error with code `C` and message `M` and
every payload `P` that can be JSON-encoded (a map inside it given by its
entries in key order), `GetResponseData(err, P)` returns bytes and logs
nothing, and these bytes are the JSON object with the keys `code = C`,
`msg` and `data`, in this order: the payload is embedded although an error
is present.  `msg` and `data` are `M` and `P` with every byte of a string or
map key that is part of no valid UTF-8 sequence replaced by U+FFFD; `msg`
has the bytes of `M` when `M` is valid UTF-8, and `data` shows `P` itself
when all strings and map keys in `P` are. -/
theorem GetResponseData_application_error (C : Int) (M : GoString) (P : GoValue)
    (hc : P.Canonical) (he : JSONEncodable P) :
    ∃ bytes, GetResponseData (some (.app { code := C, msg := M })) P =
        { log := [], result := .ok bytes } ∧
      readJSON bytes =
        .ok (.object [("code", .number (String.mk (formatInt C))), ("msg", .string (textOf M)),
          ("data", P.toJSON)]) ∧
      (validUTF8 M = true → bytesOf (textOf M) = M) ∧
      (P.validUTF8 = true → P.toJSON.shows P = true) :=
  ⟨utf8 (envelopeText (some (.app { code := C, msg := M })) P),
    GetResponseData_returns _ P he, envelopeText_reads _ P hc he, bytesOf_textOf M,
    shows_toJSON P he hc⟩

theorem GetResponseData_application_error_witness :
    ∃ bytes, GetResponseData (some (.app { code := 1003, msg := bytesOf "no \"such\" user" }))
          (.map [(bytesOf "id", .int 7), (bytesOf "tags", .slice [.string (bytesOf "a<b"), .nil])]) =
        { log := [], result := .ok bytes } ∧
      readJSON bytes =
        .ok (.object [("code", .number "1003"), ("msg", .string "no \"such\" user"),
          ("data", .object [("id", .number "7"), ("tags", .array [.string "a<b", .null])])]) ∧
      bytesOf "no \"such\" user" = (Xerr.mk 1003 (bytesOf "no \"such\" user")).Error ∧
      JSON.shows (.object [("id", .number "7"), ("tags", .array [.string "a<b", .null])])
        (.map [(bytesOf "id", .int 7), (bytesOf "tags", .slice [.string (bytesOf "a<b"), .nil])])
          = true :=
  let ⟨b, h1, h2, h3, h4⟩ := GetResponseData_application_error 1003 (bytesOf "no \"such\" user")
    (.map [(bytesOf "id", .int 7), (bytesOf "tags", .slice [.string (bytesOf "a<b"), .nil])])
    ⟨by unfold keysAscending; decide, trivial, ⟨trivial, trivial, trivial⟩, trivial⟩ rfl
  ⟨b, h1, h2, h3 rfl, h4 rfl⟩

/-- C3, as stated, fails: for the error `errors.New("\xff")`, which is no
application error, and the payload `true`, `GetResponseData` returns
`{"code":-1,"msg":"\ufffd","data":true}`: the message read back is U+FFFD,
three bytes, not the one byte of `E.Error()`. -/
theorem GetResponseData_other_error_invalid_utf8 :
    GetResponseData (some (.other [0xFF])) (.bool true) =
      { log := [],
        result := .ok (bytesOf "\x7b\"code\":-1,\"msg\":\"\\ufffd\",\"data\":true\x7d") } ∧
    readJSON (bytesOf "\x7b\"code\":-1,\"msg\":\"\\ufffd\",\"data\":true\x7d") =
      .ok (.object [("code", .number "-1"), ("msg", .string "\uFFFD"), ("data", .bool true)]) ∧
    bytesOf "\uFFFD" = [0xEF, 0xBF, 0xBD] ∧
    bytesOf "\uFFFD" ≠ (GoError.other [0xFF]).Error :=
  ⟨rfl, rfl, rfl, by decide⟩

/-- C3, amended: for every error `E` that is no application error and every
payload `P` that can be JSON-encoded (a map inside it given by its entries in
key order), `GetResponseData(E, P)` returns bytes and logs nothing, and these
bytes are the JSON object with the keys `code = -1`, `msg` and `data`, in
this order.  `msg` and `data` are `E.Error()` and `P` with every byte of a
string or map key that is part of no valid UTF-8 sequence replaced by U+FFFD;
`msg` has the bytes of `E.Error()` when that is valid UTF-8, and `data` shows
`P` itself when all strings and map keys in `P` are. -/
theorem GetResponseData_other_error (E : GoString) (P : GoValue)
    (hc : P.Canonical) (he : JSONEncodable P) :
    ∃ bytes, GetResponseData (some (.other E)) P = { log := [], result := .ok bytes } ∧
      readJSON bytes =
        .ok (.object [("code", .number "-1"), ("msg", .string (textOf (GoError.other E).Error)),
          ("data", P.toJSON)]) ∧
      (validUTF8 (GoError.other E).Error = true →
        bytesOf (textOf (GoError.other E).Error) = (GoError.other E).Error) ∧
      (P.validUTF8 = true → P.toJSON.shows P = true) :=
  ⟨utf8 (envelopeText (some (.other E)) P),
    GetResponseData_returns _ P he, envelopeText_reads _ P hc he, bytesOf_textOf E,
    shows_toJSON P he hc⟩

theorem GetResponseData_other_error_witness :
    ∃ bytes, GetResponseData (some (.other (bytesOf "dial tcp: timeout\n")))
          (.slice [.int (-5), .bool true]) = { log := [], result := .ok bytes } ∧
      readJSON bytes =
        .ok (.object [("code", .number "-1"), ("msg", .string "dial tcp: timeout\n"),
          ("data", .array [.number "-5", .bool true])]) ∧
      bytesOf "dial tcp: timeout\n" = (GoError.other (bytesOf "dial tcp: timeout\n")).Error ∧
      JSON.shows (.array [.number "-5", .bool true]) (.slice [.int (-5), .bool true]) = true :=
  let ⟨b, h1, h2, h3, h4⟩ := GetResponseData_other_error (bytesOf "dial tcp: timeout\n")
    (.slice [.int (-5), .bool true]) ⟨trivial, trivial, trivial⟩ rfl
  ⟨b, h1, h2, h3 rfl, h4 rfl⟩

/-- C4: when the body stream of the request yields its bytes `b` without a
read error, then after `GetRequestBody(req, v)`, for every target `v`, the
request's body is a fresh reader over `b`: reading it to the end yields
exactly `b` and no error, whether the JSON decoding succeeded or failed. -/
theorem GetRequestBody_keeps_body ( ERR_CODE_IO : Int) (req : HttpRequest) (v : Target)
    (h : req.Body.fault = none) :
    (GetRequestBody ERR_CODE_IO req v).req.Body = Body.ofString req.Body.pending ∧
    (GetRequestBody ERR_CODE_IO req v).req.Body.readAll.1 = req.Body.pending ∧
    (GetRequestBody ERR_CODE_IO req v).req.Body.readAll.2.1 = none := by
  have hr : req.Body.readAll = (req.Body.pending, none, { pending := [], fault := none }) := by
    simp [Body.readAll, h]
  unfold GetRequestBody
  rw [hr]
  simp only
  split <;> exact ⟨rfl, rfl, rfl⟩

theorem GetRequestBody_keeps_body_witness :
    ((⟨bytesOf "\x7b\"a\":1\x7d", none⟩ : Body).fault = none ∧
      (GetRequestBody 1003 ⟨bytesOf "POST", bytesOf "/x", ⟨bytesOf "\x7b\"a\":1\x7d", none⟩⟩
        .toInterface).err = none ∧
      (GetRequestBody 1003 ⟨bytesOf "POST", bytesOf "/x", ⟨bytesOf "\x7b\"a\":1\x7d", none⟩⟩
        .toInterface).req.Body.readAll.1 = bytesOf "\x7b\"a\":1\x7d") ∧
    ((GetRequestBody 1003 ⟨bytesOf "POST", bytesOf "/x", ⟨bytesOf "\x7b\"a\":", none⟩⟩
        .toInterface).err =
        some ⟨1003, bytesOf "Failed to unmarshal json body, error = unexpected end of JSON input"⟩ ∧
      (GetRequestBody 1003 ⟨bytesOf "POST", bytesOf "/x", ⟨bytesOf "\x7b\"a\":", none⟩⟩
        .toInterface).req.Body.readAll.1 = bytesOf "\x7b\"a\":") :=
  ⟨⟨rfl, rfl,
    (GetRequestBody_keeps_body 1003 ⟨bytesOf "POST", bytesOf "/x", ⟨bytesOf "\x7b\"a\":1\x7d", none⟩⟩
      .toInterface rfl).2.1⟩,
   ⟨rfl,
    (GetRequestBody_keeps_body 1003 ⟨bytesOf "POST", bytesOf "/x", ⟨bytesOf "\x7b\"a\":", none⟩⟩
      .toInterface rfl).2.1⟩⟩

/-- C5: for a response obtained without a transport failure and no decode
target, `Request.DoRequest` returns an error if and only if the status code is
below 200 or at least 300.  When it fails it returns no response and the error
with code 1003 whose message is built from the status code in decimal and the
status text alone, both of which it contains; when it succeeds it returns the
response as it is and no error. -/
theorem DoRequest_status (req : Request) (response : Response) :
    ((req.DoRequest (.ok response) .nil).err ≠ none ↔
        (response.StatusCode < 200 ∨ response.StatusCode ≥ 300)) ∧
    ((req.DoRequest (.ok response) .nil).err ≠ none →
        (req.DoRequest (.ok response) .nil).response = none ∧
        (req.DoRequest (.ok response) .nil).err = some
          { code := 1003,
            msg := bytesOf "Error returns with code: " ++ utf8 (formatInt response.StatusCode) ++
              bytesOf ", msg: " ++ response.Status }) ∧
    (utf8 (formatInt response.StatusCode) <:+:
        bytesOf "Error returns with code: " ++ utf8 (formatInt response.StatusCode) ++
          bytesOf ", msg: " ++ response.Status) ∧
    (response.Status <:+:
        bytesOf "Error returns with code: " ++ utf8 (formatInt response.StatusCode) ++
          bytesOf ", msg: " ++ response.Status) ∧
    ((req.DoRequest (.ok response) .nil).err = none →
        (req.DoRequest (.ok response) .nil).response = some response) := by
  refine ⟨?_, ?_, ?_, ?_, ?_⟩
  · by_cases h : response.StatusCode < 200 ∨ response.StatusCode ≥ 300
    · simp [Request.DoRequest, h]
    · simp [Request.DoRequest, h]
  · by_cases h : response.StatusCode < 200 ∨ response.StatusCode ≥ 300
    · simp [Request.DoRequest, h, xerr.New, Sprintf_status]
    · simp [Request.DoRequest, h]
  · exact ⟨bytesOf "Error returns with code: ", bytesOf ", msg: " ++ response.Status, by simp⟩
  · exact ⟨bytesOf "Error returns with code: " ++ utf8 (formatInt response.StatusCode) ++
      bytesOf ", msg: ", [], by simp⟩
  · by_cases h : response.StatusCode < 200 ∨ response.StatusCode ≥ 300
    · simp [Request.DoRequest, h]
    · simp [Request.DoRequest, h]

/-- C6: the claim says that `GetRequestBody(req, nil)` decodes a JSON object body
into a generic mapping and returns it with a nil error.  The code hands the
map `alter` itself, not a pointer to it, to `json.Unmarshal`, which refuses a
target that is no pointer: with a nil target every call returns a nil value
and an error, and for the body `{"a":1}` the error is the one shown. -/
theorem GetRequestBody_nil_target ( ERR_CODE_IO : Int) :
    (∀ req : HttpRequest, (GetRequestBody ERR_CODE_IO req .nil).value = none ∧
        (GetRequestBody ERR_CODE_IO req .nil).err ≠ none) ∧
    (GetRequestBody ERR_CODE_IO ⟨bytesOf "POST", bytesOf "/x", ⟨bytesOf "\x7b\"a\":1\x7d", none⟩⟩
        .nil).err =
      some ⟨ ERR_CODE_IO, bytesOf "Failed to unmarshal json body, error = json: Unmarshal(non-pointer map[string]interface \x7b\x7d)"⟩ := by
  refine ⟨?_, rfl⟩
  intro req
  unfold GetRequestBody
  cases hf : req.Body.fault with
  | some e => simp [Body.readAll, hf]
  | none =>
    obtain ⟨e, he⟩ := Unmarshal_value_fails req.Body.pending "map[string]interface \x7b\x7d"
    simp [Body.readAll, hf, he]

/-- C7, as stated, fails.  The map `{"k": "\xff"}`, whose value is one byte
that is no valid UTF-8, is serialized to `{"k":"\ufffd"}`, which reads back
with the value U+FFFD, three bytes.  The two keys `"\xfe"` and `"\xff"` are
both written `"\ufffd"`, so that `json.Unmarshal` gives back a map with a
single entry.  And the nil map is serialized to `null`, which is no
object. -/
theorem Serialize_invalid_utf8 :
    JSONEncodable (.map [(bytesOf "k", .string [0xFF])]) ∧
    Serialize (some [(bytesOf "k", .string [0xFF])]) =
      (bytesOf "\x7b\"k\":\"\\ufffd\"\x7d", []) ∧
    readJSON (bytesOf "\x7b\"k\":\"\\ufffd\"\x7d") = .ok (.object [("k", .string "\uFFFD")]) ∧
    showsMembers [("k", .string "\uFFFD")] [(bytesOf "k", .string [0xFF])] = false ∧
    Serialize (some [([0xFE], .int 1), ([0xFF], .int 2)]) =
      (bytesOf "\x7b\"\\ufffd\":1,\"\\ufffd\":2\x7d", []) ∧
    Unmarshal (bytesOf "\x7b\"\\ufffd\":1,\"\\ufffd\":2\x7d") .toInterface =
      .ok (.map [([0xEF, 0xBF, 0xBD], .float64 ⟨false, 1, 1⟩)]) ∧
    Serialize none = (bytesOf "null", []) ∧
    readJSON (bytesOf "null") = .ok .null :=
  ⟨rfl, rfl, rfl, rfl, rfl, rfl, rfl, rfl⟩

/-- C7, amended: for every string-keyed map `m` that is not nil (given by its
entries in key order) whose values can be JSON-encoded, `Serialize(m)` is the
JSON text of `m` and nothing is logged; the text reads back as the object
whose members are the entries of `m`, in key order, with every byte of a key
or string that is part of no valid UTF-8 sequence replaced by U+FFFD, and so
as `m` itself when all keys and strings in `m` are valid UTF-8.  The nil map
is serialized to `null`. -/
theorem Serialize_round_trip (m : List (GoString × GoValue)) (hc : GoValue.Canonical (.map m))
    (he : JSONEncodable (.map m)) :
    Serialize (some m) = (utf8 (encode (.map m)), []) ∧
    readJSON (Serialize (some m)).1 = .ok (.object (toJSONMembers m)) ∧
    (validUTF8Members m = true → showsMembers (toJSONMembers m) m = true) ∧
    Serialize none = (bytesOf "null", []) := by
  have he1 : unsupportedIn (.map m) = none := he
  have h1 : Serialize (some m) = (utf8 (encode (.map m)), []) := by
    simp only [Serialize, Marshal, he1]
  rw [h1]
  refine ⟨rfl, ?_, ?_, rfl⟩
  · exact readJSON_encode _ he1 hc
  · exact showsMembers_toJSON m (membersEncodable_of_map he1 hc) hc.2

theorem Serialize_round_trip_witness :
    Serialize (some [(bytesOf "a", .int 1), (bytesOf "b", .string (bytesOf "two"))]) =
      (bytesOf "\x7b\"a\":1,\"b\":\"two\"\x7d", []) ∧
    readJSON (Serialize (some [(bytesOf "a", .int 1), (bytesOf "b", .string (bytesOf "two"))])).1 =
      .ok (.object [("a", .number "1"), ("b", .string "two")]) ∧
    showsMembers [("a", .number "1"), ("b", .string "two")]
      [(bytesOf "a", .int 1), (bytesOf "b", .string (bytesOf "two"))] = true :=
  ⟨(Serialize_round_trip [(bytesOf "a", .int 1), (bytesOf "b", .string (bytesOf "two"))]
     ⟨by unfold keysAscending; decide, trivial, trivial, trivial⟩ rfl).1,
   (Serialize_round_trip [(bytesOf "a", .int 1), (bytesOf "b", .string (bytesOf "two"))]
     ⟨by unfold keysAscending; decide, trivial, trivial, trivial⟩ rfl).2.1,
   (Serialize_round_trip [(bytesOf "a", .int 1), (bytesOf "b", .string (bytesOf "two"))]
     ⟨by unfold keysAscending; decide, trivial, trivial, trivial⟩ rfl).2.2.1 rfl⟩

/-- C8, as stated, fails: for the body `{"a":` and a pointer to an `interface{}`
the decoding fails, the value is nil and the error carries the code handed in,
but its message is the decoder's complaint and does not include the body
text. -/
theorem GetRequestBody_error_omits_body :
    (GetRequestBody 1003 ⟨bytesOf "POST", bytesOf "/x", ⟨bytesOf "\x7b\"a\":", none⟩⟩
      .toInterface).value = none ∧
    (GetRequestBody 1003 ⟨bytesOf "POST", bytesOf "/x", ⟨bytesOf "\x7b\"a\":", none⟩⟩
      .toInterface).err =
      some ⟨1003, bytesOf "Failed to unmarshal json body, error = unexpected end of JSON input"⟩ ∧
    ¬ (bytesOf "\x7b\"a\":" <:+:
        bytesOf "Failed to unmarshal json body, error = unexpected end of JSON input") := by
  refine ⟨rfl, rfl, ?_⟩
  intro h
  have hm : 123 ∈ bytesOf "Failed to unmarshal json body, error = unexpected end of JSON input" :=
    h.subset (by decide)
  revert hm
  decide

/-- C8, amended: when the body cannot be copied, or its text fails to decode
into a target that is not nil, `GetRequestBody` returns a nil value and an
error with the code `xerr.ERR_CODE_IO` whose message is
`Failed to copy req body, error = ` resp. `Failed to unmarshal json body, error = `
followed by the message of the underlying error; the body text goes to the
log line of a decode failure only. -/
theorem GetRequestBody_failure ( ERR_CODE_IO : Int) (req : HttpRequest) (v : Target)
    (cause : GoString)
    (h : req.Body.fault = some cause ∨
      (req.Body.fault = none ∧ v ≠ .nil ∧
        ∃ e, Unmarshal req.Body.pending v = .error e ∧ cause = e.Error)) :
    (GetRequestBody ERR_CODE_IO req v).value = none ∧
    (GetRequestBody ERR_CODE_IO req v).err = some
      ⟨ ERR_CODE_IO,
        bytesOf (if req.Body.fault = none then "Failed to unmarshal json body, error = "
         else "Failed to copy req body, error = ") ++ cause⟩ ∧
    (req.Body.fault = none →
      (GetRequestBody ERR_CODE_IO req v).log =
        [{ level := .error,
           format := "[GetRequestBody] Failed to unmarshal json body error, text = %s, error = %s",
           args := [.str req.Body.pending, .str cause] }]) := by
  rcases h with h | ⟨h, hv, e, he, hc⟩
  · simp [GetRequestBody, Body.readAll, h, xerr.New, Sprintf_copy]
  · subst hc
    cases v with
    | nil => exact absurd rfl hv
    | value t => simp [GetRequestBody, Body.readAll, h, he, xerr.New, Sprintf_unmarshal]
    | nilPointer t => simp [GetRequestBody, Body.readAll, h, he, xerr.New, Sprintf_unmarshal]
    | toInterface => simp [GetRequestBody, Body.readAll, h, he, xerr.New, Sprintf_unmarshal]
    | toMap cur => simp [GetRequestBody, Body.readAll, h, he, xerr.New, Sprintf_unmarshal]

theorem GetRequestBody_failure_witness :
    (GetRequestBody 1003 ⟨bytesOf "POST", bytesOf "/x",
        ⟨bytesOf "\x7b\"a\"", some (bytesOf "unexpected EOF")⟩⟩ .toInterface).err =
      some ⟨1003, bytesOf "Failed to copy req body, error = unexpected EOF"⟩ ∧
    (GetRequestBody 1003 ⟨bytesOf "POST", bytesOf "/x", ⟨bytesOf "[1,2]", none⟩⟩ (.toMap none)).err =
      some ⟨1003, bytesOf "Failed to unmarshal json body, error = json: cannot unmarshal array into Go value of type map[string]interface \x7b\x7d"⟩ :=
  ⟨(GetRequestBody_failure 1003 ⟨bytesOf "POST", bytesOf "/x",
      ⟨bytesOf "\x7b\"a\"", some (bytesOf "unexpected EOF")⟩⟩ .toInterface
      (bytesOf "unexpected EOF") (Or.inl rfl)).2.1,
   (GetRequestBody_failure 1003 ⟨bytesOf "POST", bytesOf "/x", ⟨bytesOf "[1,2]", none⟩⟩ (.toMap none)
      (bytesOf "json: cannot unmarshal array into Go value of type map[string]interface \x7b\x7d")
      (Or.inr ⟨rfl, by simp, _, rfl, rfl⟩)).2.1⟩

/-- C9: for every request, error and payload that can be JSON-encoded, with
`bytes` what `GetResponseData(err, data)` returns: `LogGetResponseData` and
`LogGetResponseDataEx` return exactly `bytes`, and `ResponseWithLog` appends
exactly `bytes` to what the response writer was given, once, and leaves its
status as it was.  Each helper reads the body of the request to its end and
logs, in this order, the handling time (the two helpers that are given a
start time), the URL, method and body of the request, and the response.  This
holds whether or not the body can be read: the body logged is the text read,
and the empty string when the read fails. -/
theorem envelope_logged_and_written (now sTime : Int) (w : ResponseWriter) (req : HttpRequest)
    (err : Option GoError) (data : GoValue) (he : JSONEncodable data) :
    ∃ bytes, GetResponseData err data = { log := [], result := .ok bytes } ∧
      LogGetResponseData req err data =
        { log :=
            [{ level := .debug, format := "HANDLE_LOG: url = %s, method: %s, request = %s",
               args := [.str req.RequestURI, .str req.Method,
                 .str (if req.Body.fault = none then req.Body.pending else [])] },
             { level := .debug, format := "HANDLE_RESPONSE: response = %s", args := [.str bytes] }],
          result := .ok (bytes,
            { req with Body := { pending := [], fault := req.Body.fault } }) } ∧
      LogGetResponseDataEx now req sTime err data =
        { log :=
            [{ level := .info, format := "HANDLE_TIME: %d ms",
               args := [.int (Int.tdiv (wrap64 (now - sTime)) 1000000)] },
             { level := .info, format := "HANDLE_LOG: url = %s, method: %s, request = %s",
               args := [.str req.RequestURI, .str req.Method,
                 .str (if req.Body.fault = none then req.Body.pending else [])] },
             { level := .debug, format := "HANDLE_RESPONSE: response = %s", args := [.str bytes] }],
          result := .ok (bytes,
            { req with Body := { pending := [], fault := req.Body.fault } }) } ∧
      ResponseWithLog now w req sTime err data =
        { log :=
            [{ level := .info, format := "HANDLE_TIME: %d ms",
               args := [.int (Int.tdiv (wrap64 (now - sTime)) 1000000)] },
             { level := .info, format := "HANDLE_LOG: url = %s, method: %s, request = %s",
               args := [.str req.RequestURI, .str req.Method,
                 .str (if req.Body.fault = none then req.Body.pending else [])] },
             { level := .debug, format := "HANDLE_RESPONSE: response = %s", args := [.str bytes] }],
          result := .ok ({ status := w.status, written := w.written ++ [bytes] },
            { req with Body := { pending := [], fault := req.Body.fault } }) } := by
  have h1 := GetResponseData_returns err data he
  generalize utf8 (envelopeText err data) = bytes at h1
  have hl : loggedBody req = if req.Body.fault = none then req.Body.pending else [] := by
    unfold loggedBody Body.readAll
    cases req.Body.fault <;> simp
  refine ⟨bytes, h1, ?_, ?_, ?_⟩
  · simp only [LogGetResponseData, h1, hl, List.nil_append, drained, Body.readAll]
  · simp only [LogGetResponseDataEx, h1, hl, List.nil_append, drained, Body.readAll]
  · simp only [ResponseWithLog, h1, hl, List.nil_append, drained, Body.readAll, ResponseWriter.Write]

theorem envelope_logged_and_written_witness :
    ∃ bytes,
      GetResponseData none (.string (bytesOf "done")) = { log := [], result := .ok bytes } ∧
      bytes = bytesOf "\x7b\"code\":0,\"msg\":\"ok\",\"data\":\"done\"\x7d" ∧
      LogGetResponseData ⟨bytesOf "GET", bytesOf "/x", ⟨bytesOf "partial", some (bytesOf "reset")⟩⟩
          none (.string (bytesOf "done")) =
        { log :=
            [{ level := .debug, format := "HANDLE_LOG: url = %s, method: %s, request = %s",
               args := [.str (bytesOf "/x"), .str (bytesOf "GET"), .str []] },
             { level := .debug, format := "HANDLE_RESPONSE: response = %s", args := [.str bytes] }],
          result := .ok (bytes, ⟨bytesOf "GET", bytesOf "/x", ⟨[], some (bytesOf "reset")⟩⟩) } ∧
      LogGetResponseDataEx 9000000 ⟨bytesOf "GET", bytesOf "/x", ⟨bytesOf "partial", some (bytesOf "reset")⟩⟩
          2000000 none (.string (bytesOf "done")) =
        { log :=
            [{ level := .info, format := "HANDLE_TIME: %d ms", args := [.int 7] },
             { level := .info, format := "HANDLE_LOG: url = %s, method: %s, request = %s",
               args := [.str (bytesOf "/x"), .str (bytesOf "GET"), .str []] },
             { level := .debug, format := "HANDLE_RESPONSE: response = %s", args := [.str bytes] }],
          result := .ok (bytes, ⟨bytesOf "GET", bytesOf "/x", ⟨[], some (bytesOf "reset")⟩⟩) } ∧
      ResponseWithLog 9000000 ⟨none, []⟩
          ⟨bytesOf "GET", bytesOf "/x", ⟨bytesOf "partial", some (bytesOf "reset")⟩⟩
          2000000 none (.string (bytesOf "done")) =
        { log :=
            [{ level := .info, format := "HANDLE_TIME: %d ms", args := [.int 7] },
             { level := .info, format := "HANDLE_LOG: url = %s, method: %s, request = %s",
               args := [.str (bytesOf "/x"), .str (bytesOf "GET"), .str []] },
             { level := .debug, format := "HANDLE_RESPONSE: response = %s", args := [.str bytes] }],
          result := .ok (⟨none, [bytes]⟩,
            ⟨bytesOf "GET", bytesOf "/x", ⟨[], some (bytesOf "reset")⟩⟩) } :=
  let ⟨b, h0, h1, h2, h3⟩ := envelope_logged_and_written 9000000 2000000 ⟨none, []⟩
    ⟨bytesOf "GET", bytesOf "/x", ⟨bytesOf "partial", some (bytesOf "reset")⟩⟩ none
    (.string (bytesOf "done")) rfl
  ⟨b, h0, by
    have h := h0
    simp only [GetResponseData_returns none (.string (bytesOf "done")) rfl, Outcome.mk.injEq,
      Except.ok.injEq, true_and] at h
    rw [← h]
    rfl, h1, h2, h3⟩

/-- C10: when the body is read without error and decodes into a target `v` that
is not nil, `GetRequestBody(req, v)` returns the empty map and a nil error:
the decoded data is what `v` points to afterwards, never the value returned. -/
theorem GetRequestBody_returns_empty_map ( ERR_CODE_IO : Int) (req : HttpRequest) (v : Target)
    (stored : Decoded) (hv : v ≠ .nil) (hb : req.Body.fault = none)
    (hd : Unmarshal req.Body.pending v = .ok stored) :
    (GetRequestBody ERR_CODE_IO req v).value = some [] ∧
    (GetRequestBody ERR_CODE_IO req v).err = none ∧
    (GetRequestBody ERR_CODE_IO req v).stored = some stored := by
  cases v with
  | nil => exact absurd rfl hv
  | value t => simp [GetRequestBody, Body.readAll, hb, hd]
  | nilPointer t => simp [GetRequestBody, Body.readAll, hb, hd]
  | toInterface => simp [GetRequestBody, Body.readAll, hb, hd]
  | toMap cur => simp [GetRequestBody, Body.readAll, hb, hd]

theorem GetRequestBody_returns_empty_map_witness :
    (GetRequestBody 1003 ⟨bytesOf "POST", bytesOf "/x", ⟨bytesOf "\x7b\"a\":1\x7d", none⟩⟩
      .toInterface).value = some [] ∧
    (GetRequestBody 1003 ⟨bytesOf "POST", bytesOf "/x", ⟨bytesOf "\x7b\"a\":1\x7d", none⟩⟩
      .toInterface).err = none ∧
    (GetRequestBody 1003 ⟨bytesOf "POST", bytesOf "/x", ⟨bytesOf "\x7b\"a\":1\x7d", none⟩⟩
      .toInterface).stored = some (.map [(bytesOf "a", .float64 ⟨false, 1, 0⟩)]) :=
  GetRequestBody_returns_empty_map 1003
    ⟨bytesOf "POST", bytesOf "/x", ⟨bytesOf "\x7b\"a\":1\x7d", none⟩⟩ .toInterface
    (.map [(bytesOf "a", .float64 ⟨false, 1, 0⟩)]) (by simp) rfl rfl

end gowork
